import Mathlib

/-!
# Verification of the Klondike solitaire engine (`src/game` backend)

Shallow embedding of the rules engine found in the repository's
`src/game` backend module (deal construction, draw/recycle, move
validation and application, draw-mode control), together with proofs of
the specification claims about it.

Conventions of the embedding:
* JavaScript arrays become `List`s; `push` appends at the end,
  `pop` removes the last element (the "top" of every pile is the last
  element, as in the source).
* JavaScript numbers used as indices, ranks and ids become `Int`
  (requests may carry negative indices; `simulateWin` in the UI uses
  id `-1`).
* Indexing `a[i]` on an array becomes `listGet?`, which returns `none`
  for out-of-range or negative indices (JS `undefined`).
* `Array.prototype.slice` with a possibly negative start index becomes
  `jsSlice`.
* Functions that `throw` return a `MoveOutcome` (or `Except`) whose
  error constructor names the thrown message; `.rangeError` stands for
  the JS `RangeError` raised by assigning a negative array length.
  The error outcome also records the module state at the moment of the
  throw, which is what a caller of the backend observes afterwards.
-/

/-- The four suits, as in `types.ts`. -/
inductive Suit where
  | hearts
  | diamonds
  | clubs
  | spades
deriving DecidableEq, Repr

/-- A playing card (`types.ts`): identity, suit and rank (1=Ace .. 13=King). -/
structure Card where
  id : Int
  suit : Suit
  rank : Int
deriving DecidableEq, Repr

/-- A tableau entry: a card plus its face-up flag (`types.ts`). -/
structure TableauCard where
  card : Card
  face_up : Bool
deriving DecidableEq, Repr

/-- The aggregate game state (`types.ts`). -/
structure GameState where
  stock : List Card
  waste : List Card
  foundations : List (List Card)
  tableau : List (List TableauCard)
  draw_count : Int
deriving DecidableEq, Repr

/-- Pile kinds appearing in a move request (`backend.ts`). -/
inductive PileKind where
  | stock
  | waste
  | foundation
  | tableau
deriving DecidableEq, Repr

/-- A pile reference in a move request; `none` models an absent
(`undefined`) field. -/
structure PileRef where
  kind : PileKind
  index : Option Int := none
  card_index : Option Int := none
deriving DecidableEq, Repr

/-- A move request (`backend.ts`). -/
structure MoveRequest where
  source : PileRef
  target : PileRef
deriving DecidableEq, Repr

/-- JS array indexing `l[i]`: `none` (undefined) outside `0 ≤ i < l.length`. -/
def listGet? (l : List α) (i : Int) : Option α :=
  if h : 0 ≤ i ∧ i.toNat < l.length then some (l.get ⟨i.toNat, h.2⟩) else none

/-- Write through a JS index known to be non-negative (no-op when negative
or out of range, as JS assignment to an index beyond the length never
happens in the embedded code paths). -/
def listSet (l : List α) (i : Int) (x : α) : List α :=
  if 0 ≤ i then l.set i.toNat x else l

/-- Mutate the element at a JS index in place, when it exists. -/
def listModify (l : List α) (i : Int) (f : α → α) : List α :=
  match listGet? l i with
  | none => l
  | some x => listSet l i (f x)

/-- JS `Array.prototype.slice(start)` with a single, possibly negative,
start argument: negative starts count from the end
(`max(length + start, 0)`). -/
def jsSlice (l : List α) (k : Int) : List α :=
  if 0 ≤ k then l.drop k.toNat else l.drop (l.length - (-k).toNat)

/-- JS `pop()`: removes and returns the last element. -/
def popCard (l : List α) : Option (α × List α) :=
  match l.getLast? with
  | some c => some (c, l.dropLast)
  | none => none

/-- The suit list of `backend.ts` (`const suits`). -/
def suits : List Suit := [.hearts, .diamonds, .clubs, .spades]

/-- The 52 cards built by `newGameState` before shuffling: for each suit in
order, ranks 1..13, with `id` incremented once per card starting at 0. -/
def standardDeck : List Card :=
  (suits.flatMap fun s => (List.range 13).map fun r => (s, (r : Int) + 1))
    |>.enum.map fun p => ⟨(p.1 : Int), p.2.1, p.2.2⟩

/-- One Fisher–Yates swap `[list[i], list[j]] = [list[j], list[i]]`. -/
def swapAt (l : List α) (i j : Nat) : List α :=
  match l.get? i, l.get? j with
  | some a, some b => (l.set i b).set j a
  | _, _ => l

/-- The Fisher–Yates loop of `shuffle`, counting `i` down from
`list.length - 1` to `1`; `rand i` embeds the value
`Math.floor(Math.random() * (i + 1))`, reduced mod `i + 1` so that any
oracle is in range, as the real one always is. -/
def shuffleAux (rand : Nat → Nat) : List α → Nat → List α
  | l, 0 => l
  | l, i + 1 => shuffleAux rand (swapAt l (i + 1) (rand (i + 1) % (i + 2))) i

/-- `shuffle(list)` from `backend.ts`, with the randomness oracle explicit. -/
def shuffle (l : List α) (rand : Nat → Nat) : List α :=
  shuffleAux rand l (l.length - 1)

/-- The inner dealing loop of `newGameState`: pop `n` cards from the end of
the deck into one tableau pile, the last popped card face-up
(`face_up: cardIndex === pileIndex`). Returns the remaining deck and the
pile; `none` embeds the `"deck should have enough cards"` throw. -/
def buildPile : List Card → Nat → Option (List Card × List TableauCard)
  | deck, 0 => some (deck, [])
  | deck, n + 1 =>
    match popCard deck with
    | none => none
    | some (c, deck') =>
      match buildPile deck' n with
      | none => none
      | some (deck'', rest) => some (deck'', ⟨c, n == 0⟩ :: rest)

/-- The outer dealing loop of `newGameState`: starting at pile index `i`,
deal `n` piles, pile index `p` receiving `p + 1` cards. -/
def dealPiles : List Card → Nat → Nat → Option (List Card × List (List TableauCard))
  | deck, _, 0 => some (deck, [])
  | deck, i, n + 1 =>
    match buildPile deck (i + 1) with
    | none => none
    | some (deck', pile) =>
      match dealPiles deck' (i + 1) n with
      | none => none
      | some (deck'', piles) => some (deck'', pile :: piles)

/-- `newGameState()` from `backend.ts`: build the 52 cards, shuffle, deal
seven tableau piles of sizes 1..7, remaining cards become the stock;
waste and foundations empty, draw count 3. -/
def newGameState (rand : Nat → Nat) : Option GameState :=
  match dealPiles (shuffle standardDeck rand) 0 7 with
  | none => none
  | some (deck, tableau) =>
    some { stock := deck
           waste := []
           foundations := [[], [], [], []]
           tableau := tableau
           draw_count := 3 }

/-- `isRed` from `backend.ts`. -/
def isRed : Suit → Bool
  | .hearts => true
  | .diamonds => true
  | _ => false

/-- The pairwise loop body of `isValidTableauRun`: every consecutive pair
must descend by exactly one rank and alternate color. -/
def runPairsOk : List TableauCard → Bool
  | [] => true
  | [_] => true
  | a :: b :: rest =>
    (a.card.rank == b.card.rank + 1) &&
      (isRed a.card.suit != isRed b.card.suit) && runPairsOk (b :: rest)

/-- `isValidTableauRun` from `backend.ts`: non-empty and pairwise valid. -/
def isValidTableauRun (cards : List TableauCard) : Bool :=
  !cards.isEmpty && runPairsOk cards

/-- `canPlaceOnFoundation` from `backend.ts`. -/
def canPlaceOnFoundation (pile : List Card) (card : Card) : Bool :=
  match pile.getLast? with
  | some top => top.suit == card.suit && card.rank == top.rank + 1
  | none => card.rank == 1

/-- `canPlaceOnTableau` from `backend.ts`; callers guarantee `movingCards`
is non-empty (the source checks `!movingCards.length` beforehand). -/
def canPlaceOnTableau (pile : List TableauCard) (movingCards : List Card) : Bool :=
  match movingCards with
  | [] => false
  | lead :: _ =>
    match pile.getLast? with
    | some top =>
      if !top.face_up then false
      else (top.card.rank == lead.rank + 1) && (isRed top.card.suit != isRed lead.suit)
    | none => lead.rank == 13

/-- Flip the top card of one pile face-up when it is face-down
(loop body of `flipTableauTops`). -/
def flipTop (pile : List TableauCard) : List TableauCard :=
  match pile.getLast? with
  | none => pile
  | some top => if top.face_up then pile else pile.dropLast ++ [{ top with face_up := true }]

/-- `flipTableauTops` from `backend.ts`. -/
def flipTableauTops (g : GameState) : GameState :=
  { g with tableau := g.tableau.map flipTop }

/-- A resolved move source (`type MoveSource` in `backend.ts`). -/
inductive MoveSource where
  | waste
  | foundation (index : Int)
  | tableau (index : Int) (cardIndex : Int)
deriving DecidableEq, Repr

/-- The errors thrown by the backend.  All but `rangeError` are explicit
`throw new Error("...")` sites with descriptive messages; `rangeError`
is the JS `RangeError` raised by `pile.length = cardIndex` when
`cardIndex` is negative in `removeFromSource`. -/
inductive JsErr where
  | wasteEmpty
  | foundationIndexRequired
  | foundationIndexOutOfRange
  | foundationEmpty
  | tableauIndexRequired
  | tableauCardIndexRequired
  | tableauIndexOutOfRange
  | tableauCardIndexOutOfRange
  | cannotMoveFaceDown
  | invalidRun
  | useDrawFromStock
  | samePile
  | onlyOneToFoundation
  | cannotPlaceOnFoundation
  | noSource
  | noCardsToMove
  | cannotPlaceOnTableau
  | badDestination
  | drawCountInvalid
  | rangeError
deriving DecidableEq, Repr

/-- Whether an error is one of the engine's own structured
`new Error("...")` rejections (everything except the `RangeError`). -/
def JsErr.structured : JsErr → Bool
  | .rangeError => false
  | _ => true

/-- Outcome of a backend call: either the new state, or an error together
with the module state at the moment of the throw (what the caller's next
`getState()` would observe). -/
inductive MoveOutcome where
  | ok (g : GameState)
  | err (e : JsErr) (g : GameState)
deriving DecidableEq, Repr

/-- Whether an outcome is a success. -/
def MoveOutcome.isOk : MoveOutcome → Bool
  | .ok _ => true
  | .err _ _ => false

/-- The state owned by the backend after the call returns or throws. -/
def MoveOutcome.state : MoveOutcome → GameState
  | .ok g => g
  | .err _ g => g

/-- The source-resolution stage of `applyMove` (its first `if`/`else if`
chain): compute the moving cards and the `MoveSource`, or the thrown
error.  This stage never mutates the state. -/
def resolveSource (g : GameState) (source : PileRef) : Except JsErr (List Card × MoveSource) :=
  match source.kind with
  | .waste =>
    match g.waste.getLast? with
    | none => .error .wasteEmpty
    | some card => .ok ([card], .waste)
  | .foundation =>
    match source.index with
    | none => .error .foundationIndexRequired
    | some i =>
      match listGet? g.foundations i with
      | none => .error .foundationIndexOutOfRange
      | some pile =>
        match pile.getLast? with
        | none => .error .foundationEmpty
        | some card => .ok ([card], .foundation i)
  | .tableau =>
    match source.index with
    | none => .error .tableauIndexRequired
    | some i =>
      match source.card_index with
      | none => .error .tableauCardIndexRequired
      | some k =>
        match listGet? g.tableau i with
        | none => .error .tableauIndexOutOfRange
        | some pile =>
          if (pile.length : Int) ≤ k then .error .tableauCardIndexOutOfRange
          else
            let slice := jsSlice pile k
            if slice.any (fun tc => !tc.face_up) then .error .cannotMoveFaceDown
            else if !isValidTableauRun slice then .error .invalidRun
            else .ok (slice.map (·.card), .tableau i k)
  | .stock => .error .useDrawFromStock

/-- `removeFromSource` from `backend.ts`.  The tableau case assigns
`pile.length = cardIndex`, which truncates for `0 ≤ cardIndex ≤ length`
and raises a `RangeError` for a negative `cardIndex`. -/
def removeFromSource (g : GameState) (source : MoveSource) : Except JsErr GameState :=
  match source with
  | .waste => .ok { g with waste := g.waste.dropLast }
  | .foundation i =>
    match listGet? g.foundations i with
    | none => .ok g
    | some pile => .ok { g with foundations := listSet g.foundations i pile.dropLast }
  | .tableau i k =>
    match listGet? g.tableau i with
    | none => .ok g
    | some pile =>
      if k ≤ (pile.length : Int) then
        if k < 0 then .error .rangeError
        else .ok { g with tableau := listSet g.tableau i (pile.take k.toNat) }
      else .ok g

/-- `applyMove` from `backend.ts`: resolve the source, guard the
degenerate same-tableau move, validate the destination, commit
(remove from source, append to destination) and flip exposed tableau
tops.  Every error records the state at the throw site. -/
def applyMove (g : GameState) (req : MoveRequest) : MoveOutcome :=
  match resolveSource g req.source with
  | .error e => .err e g
  | .ok (movingCards, src) =>
    if req.source.kind = .tableau ∧ req.target.kind = .tableau ∧
        req.source.index = req.target.index then
      .err .samePile g
    else
      match req.target.kind with
      | .foundation =>
        match req.target.index with
        | none => .err .foundationIndexRequired g
        | some ti =>
          match listGet? g.foundations ti with
          | none => .err .foundationIndexOutOfRange g
          | some pile =>
            match movingCards with
            | [card] =>
              if !canPlaceOnFoundation pile card then .err .cannotPlaceOnFoundation g
              else
                match removeFromSource g src with
                | .error e => .err e g
                | .ok g' =>
                  .ok (flipTableauTops
                    { g' with foundations := listModify g'.foundations ti (· ++ [card]) })
            | _ => .err .onlyOneToFoundation g
      | .tableau =>
        match req.target.index with
        | none => .err .tableauIndexRequired g
        | some ti =>
          match listGet? g.tableau ti with
          | none => .err .tableauIndexOutOfRange g
          | some _pile =>
            if movingCards.isEmpty then .err .noCardsToMove g
            else if !canPlaceOnTableau _pile movingCards then .err .cannotPlaceOnTableau g
            else
              match removeFromSource g src with
              | .error e => .err e g
              | .ok g' =>
                .ok (flipTableauTops
                  { g' with
                      tableau := listModify g'.tableau ti
                        (· ++ movingCards.map fun c => ⟨c, true⟩) })
      | _ => .err .badDestination g

/-- The draw loop of `drawInternal`: pop up to `n` cards from the stock
onto the waste, stopping early when the stock runs out. -/
def drawLoop : GameState → Nat → GameState
  | g, 0 => g
  | g, n + 1 =>
    match popCard g.stock with
    | none => g
    | some (c, stock') => drawLoop { g with stock := stock', waste := g.waste ++ [c] } n

/-- The recycle loop of `drawInternal` (`while (game.waste.length)`),
run with fuel equal to the waste size: pop each waste card onto the
stock. -/
def recycleLoop : GameState → Nat → GameState
  | g, 0 => g
  | g, n + 1 =>
    match popCard g.waste with
    | none => g
    | some (c, waste') => recycleLoop { g with waste := waste', stock := g.stock ++ [c] } n

/-- `drawInternal` from `backend.ts`: recycle the waste when the stock is
empty, otherwise draw `Math.max(1, draw_count)` cards (stopping at an
empty stock). -/
def drawInternal (g : GameState) : GameState :=
  if g.stock.isEmpty then
    if g.waste.isEmpty then g else recycleLoop g g.waste.length
  else
    drawLoop g (max 1 g.draw_count).toNat

/-- `setDrawCount` from `backend.ts`: reject anything other than 1 or 3,
otherwise update only `draw_count`. -/
def setDrawCount (g : GameState) (n : Int) : MoveOutcome :=
  if n ≠ 1 ∧ n ≠ 3 then .err .drawCountInvalid g
  else .ok { g with draw_count := n }

/-- Modelled from the spec: the backend module's `setState` (imported by
`useGame.ts` from `./backend` but not present under the provided
sources) — "force-install an externally held snapshot; the engine must
accept any structurally valid GameState, performing no rule
re-validation".  Given the previous module state and the snapshot to
install, it returns the new module state and the returned snapshot. -/
def setState (_current : GameState) (s : GameState) : GameState × GameState :=
  (s, s)

/-- `getState` from `backend.ts`: a snapshot of the current module state
(deep copies are identities in the value semantics of the embedding). -/
def getState (current : GameState) : GameState :=
  current

/-- One engine call made on the current state: a `draw()`, a
`moveCards()` or a `setDrawCount()`, the resulting state being the one
the backend owns afterwards — also after a rejected call
(`MoveOutcome.state`). -/
inductive Step : GameState → GameState → Prop where
  | draw (g : GameState) : Step g (drawInternal g)
  | move (g : GameState) (req : MoveRequest) :
      Step g (applyMove g req).state
  | setDC (g : GameState) (n : Int) :
      Step g (setDrawCount g n).state

/-- The states reachable from `newGame()` through any sequence of
`draw()`, `moveCards()` and `setDrawCount()` calls, counting rejected
calls as well. -/
def Reachable (g : GameState) : Prop :=
  ∃ (rand : Nat → Nat) (g₀ : GameState),
    newGameState rand = some g₀ ∧ Relation.ReflTransGen Step g₀ g

/-- The multiset of card ids in a list of cards. -/
def idsC (l : List Card) : Multiset Int :=
  (l.map (·.id) : List Int)

/-- The multiset of card ids in a tableau pile. -/
def idsTC (l : List TableauCard) : Multiset Int :=
  (l.map (·.card.id) : List Int)

/-- The multiset of card ids in a list of foundation piles. -/
def idsF : List (List Card) → Multiset Int
  | [] => 0
  | p :: rest => idsC p + idsF rest

/-- The multiset of card ids in a list of tableau piles. -/
def idsT : List (List TableauCard) → Multiset Int
  | [] => 0
  | p :: rest => idsTC p + idsT rest

/-- All card ids present in a game state, as a multiset. -/
def stateIds (g : GameState) : Multiset Int :=
  idsC g.stock + idsC g.waste + idsF g.foundations + idsT g.tableau

/-- The 52 ids `0..51` created by `newGameState`. -/
def stdIds : Multiset Int :=
  ((List.range 52).map fun n => (n : Int) : List Int)

/-! ## Basic lemmas about the JS-array helpers -/

theorem listGet?_natCast (l : List α) (i : Nat) :
    listGet? l (i : Int) = l[i]? := by
  simp only [listGet?]
  split
  · rename_i h
    simp [List.getElem?_eq_getElem, h.2]
  · rename_i h
    simp only [not_and, Int.toNat_ofNat] at h
    rw [List.getElem?_eq_none]
    omega

theorem listGet?_eq_some_of_lt (l : List α) (i : Nat) (h : i < l.length) :
    listGet? l (i : Int) = some l[i] := by
  rw [listGet?_natCast, List.getElem?_eq_getElem h]

theorem listGet?_neg (l : List α) (i : Int) (h : i < 0) : listGet? l i = none := by
  simp only [listGet?]
  split
  · omega
  · rfl

theorem listSet_natCast (l : List α) (i : Nat) (x : α) :
    listSet l (i : Int) x = l.set i x := by
  simp [listSet]

theorem dropLast_of_getLast? {l : List α} {c : α} (h : l.getLast? = some c) :
    l = l.dropLast ++ [c] := by
  obtain ⟨l', rfl⟩ := List.getLast?_eq_some_iff.mp h
  simp

/-! ## Permutation facts about the Fisher–Yates shuffle -/

theorem count_set_add [DecidableEq α] (l : List α) (i : Nat) (x b : α) (h : i < l.length) :
    (l.set i x).count b + (if l[i] = b then 1 else 0)
      = l.count b + (if x = b then 1 else 0) := by
  induction l generalizing i with
  | nil => simp at h
  | cons a t ih =>
    cases i with
    | zero =>
      simp only [List.set, List.count_cons, List.getElem_cons_zero, beq_iff_eq]
      by_cases h1 : x = b <;> by_cases h2 : a = b <;> simp [h1, h2]
    | succ n =>
      have hn : n < t.length := by simpa using h
      have e := ih n hn
      simp only [List.set, List.count_cons, List.getElem_cons_succ, beq_iff_eq]
      by_cases h1 : x = b <;> by_cases h2 : a = b <;>
        by_cases h3 : t[n] = b <;> simp [h1, h2, h3] at e ⊢ <;> omega

theorem swapAt_perm [DecidableEq α] (l : List α) (i j : Nat) : (swapAt l i j).Perm l := by
  unfold swapAt
  cases hi : l.get? i with
  | none => exact List.Perm.refl l
  | some a =>
    cases hj : l.get? j with
    | none => exact List.Perm.refl l
    | some b =>
      rw [List.get?_eq_getElem?] at hi hj
      have hi' : i < l.length := by
        by_contra hc
        rw [List.getElem?_eq_none (by omega)] at hi
        exact Option.noConfusion hi
      have hj' : j < l.length := by
        by_contra hc
        rw [List.getElem?_eq_none (by omega)] at hj
        exact Option.noConfusion hj
      have ha : a = l[i] := by
        rw [List.getElem?_eq_getElem hi'] at hi
        exact (Option.some_inj.mp hi).symm
      have hb : b = l[j] := by
        rw [List.getElem?_eq_getElem hj'] at hj
        exact (Option.some_inj.mp hj).symm
      subst ha hb
      rw [List.perm_iff_count]
      intro c
      have hj'' : j < (l.set i l[j]).length := by simpa using hj'
      have e1 := count_set_add l i (l[j]) c hi'
      have e2 := count_set_add (l.set i (l[j])) j (l[i]) c (by simpa using hj')
      have e3 : (l.set i (l[j]))[j] = l[j] := by
        rw [List.getElem_set]
        split <;> rfl
      rw [e3] at e2
      by_cases hb1 : l[i] = c <;> by_cases hb2 : l[j] = c <;>
        simp [hb1, hb2] at e1 e2 ⊢ <;> omega

theorem shuffleAux_perm [DecidableEq α] (rand : Nat → Nat) (l : List α) (n : Nat) :
    (shuffleAux rand l n).Perm l := by
  induction n generalizing l with
  | zero => exact List.Perm.refl l
  | succ i ih =>
    exact (ih _).trans (swapAt_perm l (i + 1) (rand (i + 1) % (i + 2)))

theorem shuffle_perm [DecidableEq α] (l : List α) (rand : Nat → Nat) :
    (shuffle l rand).Perm l :=
  shuffleAux_perm rand l (l.length - 1)

theorem shuffle_length [DecidableEq α] (l : List α) (rand : Nat → Nat) :
    (shuffle l rand).length = l.length :=
  (shuffle_perm l rand).length_eq

/-! ## Conservation helpers: multisets of card ids -/

theorem idsC_append (l₁ l₂ : List Card) : idsC (l₁ ++ l₂) = idsC l₁ + idsC l₂ := by
  simp [idsC]

theorem idsTC_append (l₁ l₂ : List TableauCard) :
    idsTC (l₁ ++ l₂) = idsTC l₁ + idsTC l₂ := by
  simp [idsTC]

theorem idsC_dropLast (l : List Card) (c : Card) (h : l.getLast? = some c) :
    idsC l = idsC l.dropLast + idsC [c] := by
  conv_lhs => rw [dropLast_of_getLast? h]
  rw [idsC_append]

theorem idsTC_dropLast (l : List TableauCard) (tc : TableauCard) (h : l.getLast? = some tc) :
    idsTC l = idsTC l.dropLast + idsTC [tc] := by
  conv_lhs => rw [dropLast_of_getLast? h]
  rw [idsTC_append]

theorem idsTC_take_drop (l : List TableauCard) (k : Nat) :
    idsTC (l.take k) + idsTC (l.drop k) = idsTC l := by
  rw [← idsTC_append, List.take_append_drop]

theorem idsC_map_card (l : List TableauCard) : idsC (l.map (·.card)) = idsTC l := by
  unfold idsC idsTC
  rw [List.map_map]
  rfl

theorem idsTC_map_faceUp (l : List Card) :
    idsTC (l.map fun c => ⟨c, true⟩) = idsC l := by
  unfold idsC idsTC
  rw [List.map_map]
  rfl

theorem idsF_set (fs : List (List Card)) (i : Nat) (p : List Card) (h : i < fs.length) :
    idsF (fs.set i p) + idsC fs[i] = idsF fs + idsC p := by
  induction fs generalizing i with
  | nil => simp at h
  | cons q t ih =>
    cases i with
    | zero =>
      simp only [List.set, idsF, List.getElem_cons_zero]
      abel
    | succ n =>
      have hn : n < t.length := by simpa using h
      simp only [List.set, idsF, List.getElem_cons_succ]
      have e := ih n hn
      calc idsC q + idsF (t.set n p) + idsC t[n]
          = idsC q + (idsF (t.set n p) + idsC t[n]) := by abel
        _ = idsC q + (idsF t + idsC p) := by rw [e]
        _ = idsC q + idsF t + idsC p := by abel

theorem idsT_set (ts : List (List TableauCard)) (i : Nat) (p : List TableauCard)
    (h : i < ts.length) :
    idsT (ts.set i p) + idsTC ts[i] = idsT ts + idsTC p := by
  induction ts generalizing i with
  | nil => simp at h
  | cons q t ih =>
    cases i with
    | zero =>
      simp only [List.set, idsT, List.getElem_cons_zero]
      abel
    | succ n =>
      have hn : n < t.length := by simpa using h
      simp only [List.set, idsT, List.getElem_cons_succ]
      have e := ih n hn
      calc idsTC q + idsT (t.set n p) + idsTC t[n]
          = idsTC q + (idsT (t.set n p) + idsTC t[n]) := by abel
        _ = idsTC q + (idsT t + idsTC p) := by rw [e]
        _ = idsTC q + idsT t + idsTC p := by abel

theorem idsTC_flipTop (p : List TableauCard) : idsTC (flipTop p) = idsTC p := by
  cases h : p.getLast? with
  | none => simp [flipTop, h]
  | some top =>
    by_cases hf : top.face_up
    · simp [flipTop, h, hf]
    · simp only [flipTop, h, hf, if_neg, Bool.false_eq_true, ite_false]
      rw [idsTC_append]
      have e : idsTC [({ card := top.card, face_up := true } : TableauCard)] = idsTC [top] := rfl
      rw [e, ← idsTC_dropLast p top h]

theorem idsT_map_flipTop (ts : List (List TableauCard)) :
    idsT (ts.map flipTop) = idsT ts := by
  induction ts with
  | nil => rfl
  | cons p t ih => simp [idsT, idsTC_flipTop, ih]

theorem stateIds_flipTableauTops (g : GameState) :
    stateIds (flipTableauTops g) = stateIds g := by
  simp [stateIds, flipTableauTops, idsT_map_flipTop]

/-! ## The draw and recycle loops -/

theorem popCard_eq_none {l : List α} : popCard l = none ↔ l = [] := by
  unfold popCard
  cases h : l.getLast? with
  | none => simpa using List.getLast?_eq_none_iff.mp h
  | some c =>
    simp only [reduceCtorEq, false_iff]
    rintro rfl
    simp at h

theorem popCard_eq_some {l l' : List α} {c : α} (h : popCard l = some (c, l')) :
    l = l' ++ [c] := by
  unfold popCard at h
  cases hl : l.getLast? with
  | none => rw [hl] at h; exact Option.noConfusion h
  | some d =>
    rw [hl] at h
    obtain ⟨rfl, rfl⟩ : d = c ∧ l.dropLast = l' := by
      constructor <;> cases h <;> rfl
    exact dropLast_of_getLast? hl

theorem recycleLoop_spec (n : Nat) :
    ∀ g : GameState, g.waste.length = n →
      recycleLoop g n = { g with stock := g.stock ++ g.waste.reverse, waste := [] } := by
  induction n with
  | zero =>
    intro g hg
    have : g.waste = [] := List.length_eq_zero.mp hg
    cases g
    simp_all [recycleLoop]
  | succ n ih =>
    intro g hg
    have hne : g.waste ≠ [] := by
      intro h
      rw [h] at hg
      simp at hg
    unfold recycleLoop
    cases hp : popCard g.waste with
    | none => exact absurd (popCard_eq_none.mp hp) hne
    | some p =>
      obtain ⟨c, w'⟩ := p
      have hw : g.waste = w' ++ [c] := popCard_eq_some hp
      have hw' : w'.length = n := by
        have := congrArg List.length hw
        simp at this
        omega
      dsimp only
      rw [ih _ (by simpa using hw')]
      cases g
      simp_all [List.reverse_append]

theorem drawLoop_spec (n : Nat) :
    ∀ g : GameState,
      drawLoop g n =
        { g with
            stock := g.stock.take (g.stock.length - min n g.stock.length)
            waste := g.waste ++
              (g.stock.drop (g.stock.length - min n g.stock.length)).reverse } := by
  induction n with
  | zero =>
    intro g
    cases g
    simp [drawLoop]
  | succ n ih =>
    intro g
    unfold drawLoop
    cases hp : popCard g.stock with
    | none =>
      have : g.stock = [] := popCard_eq_none.mp hp
      cases g
      simp_all [drawLoop]
    | some p =>
      obtain ⟨c, s'⟩ := p
      have hs : g.stock = s' ++ [c] := popCard_eq_some hp
      dsimp only
      rw [ih]
      have hlen : g.stock.length = s'.length + 1 := by rw [hs]; simp
      have hmin : min (n + 1) g.stock.length = min n s'.length + 1 := by
        rw [hlen]; omega
      have hsub : g.stock.length - min (n + 1) g.stock.length
          = s'.length - min n s'.length := by omega
      have htake : g.stock.take (s'.length - min n s'.length)
          = s'.take (s'.length - min n s'.length) := by
        rw [hs, List.take_append_of_le_length (by omega)]
      have hdrop : g.stock.drop (s'.length - min n s'.length)
          = s'.drop (s'.length - min n s'.length) ++ [c] := by
        rw [hs, List.drop_append_of_le_length (by omega)]
      cases g
      simp_all [hsub, htake, hdrop]

theorem drawInternal_stock_nonempty (g : GameState) (h : ¬ g.stock.isEmpty) :
    drawInternal g =
      { g with
          stock := g.stock.take
            (g.stock.length - min (max 1 g.draw_count).toNat g.stock.length)
          waste := g.waste ++
            (g.stock.drop
              (g.stock.length - min (max 1 g.draw_count).toNat g.stock.length)).reverse } := by
  unfold drawInternal
  rw [if_neg h, drawLoop_spec]

theorem drawInternal_recycle (g : GameState) (hs : g.stock.isEmpty)
    (hw : ¬ g.waste.isEmpty) :
    drawInternal g = { g with stock := g.stock ++ g.waste.reverse, waste := [] } := by
  unfold drawInternal
  rw [if_pos hs, if_neg hw, recycleLoop_spec g.waste.length g rfl]

theorem drawInternal_both_empty (g : GameState) (hs : g.stock.isEmpty)
    (hw : g.waste.isEmpty) : drawInternal g = g := by
  unfold drawInternal
  rw [if_pos hs, if_pos hw]

theorem idsC_reverse (l : List Card) : idsC l.reverse = idsC l := by
  unfold idsC
  rw [List.map_reverse, Multiset.coe_reverse]

theorem idsC_nil : idsC ([] : List Card) = 0 := rfl

theorem idsC_take_drop (l : List Card) (k : Nat) :
    idsC (l.take k) + idsC (l.drop k) = idsC l := by
  rw [← idsC_append, List.take_append_drop]

theorem stateIds_drawInternal (g : GameState) : stateIds (drawInternal g) = stateIds g := by
  by_cases hs : g.stock.isEmpty
  · by_cases hw : g.waste.isEmpty
    · rw [drawInternal_both_empty g hs hw]
    · rw [drawInternal_recycle g hs hw]
      simp only [stateIds, idsC_append, idsC_reverse, idsC_nil]
      abel
  · rw [drawInternal_stock_nonempty g hs]
    simp only [stateIds, idsC_append, idsC_reverse]
    have := idsC_take_drop g.stock
      (g.stock.length - min (max 1 g.draw_count).toNat g.stock.length)
    calc idsC (g.stock.take
          (g.stock.length - min (max 1 g.draw_count).toNat g.stock.length))
          + (idsC g.waste + idsC (g.stock.drop
              (g.stock.length - min (max 1 g.draw_count).toNat g.stock.length)))
          + idsF g.foundations + idsT g.tableau
        = idsC g.stock + idsC g.waste + idsF g.foundations + idsT g.tableau := by
          rw [← this]; abel
      _ = stateIds g := rfl

/-! ## Index-helper lemmas -/

theorem listGet?_isSome_iff {l : List α} {i : Int} :
    (listGet? l i).isSome ↔ 0 ≤ i ∧ i.toNat < l.length := by
  unfold listGet?
  split <;> simp_all

theorem listGet?_eq_some_elim {l : List α} {i : Int} {x : α} (h : listGet? l i = some x) :
    0 ≤ i ∧ ∃ hlt : i.toNat < l.length, x = l[i.toNat] := by
  unfold listGet? at h
  split at h
  · rename_i hc
    exact ⟨hc.1, hc.2, by cases h; rfl⟩
  · exact Option.noConfusion h

theorem listSet_length (l : List α) (i : Int) (x : α) :
    (listSet l i x).length = l.length := by
  unfold listSet
  split <;> simp

theorem listGet?_listSet_isSome (l : List α) (i j : Int) (x : α)
    (h : (listGet? l j).isSome) : (listGet? (listSet l i x) j).isSome := by
  rw [listGet?_isSome_iff] at h ⊢
  rw [listSet_length]
  exact h

theorem idsF_listModify_append (fs : List (List Card)) (ti : Int) (q : List Card)
    (cs : List Card) (h : listGet? fs ti = some q) :
    idsF (listModify fs ti (· ++ cs)) = idsF fs + idsC cs := by
  obtain ⟨h0, hlt, rfl⟩ := listGet?_eq_some_elim h
  unfold listModify
  simp only [h, listSet, if_pos h0]
  have e := idsF_set fs ti.toNat (fs[ti.toNat] ++ cs) hlt
  rw [idsC_append] at e
  have e2 : idsF (fs.set ti.toNat (fs[ti.toNat] ++ cs)) + idsC fs[ti.toNat]
      = idsF fs + idsC fs[ti.toNat] + idsC cs := by
    rw [e]; abel
  exact add_right_cancel (by rw [e2]; abel : idsF (fs.set ti.toNat (fs[ti.toNat] ++ cs))
    + idsC fs[ti.toNat] = (idsF fs + idsC cs) + idsC fs[ti.toNat])

theorem idsT_listModify_append (ts : List (List TableauCard)) (ti : Int)
    (q : List TableauCard) (cs : List TableauCard) (h : listGet? ts ti = some q) :
    idsT (listModify ts ti (· ++ cs)) = idsT ts + idsTC cs := by
  obtain ⟨h0, hlt, rfl⟩ := listGet?_eq_some_elim h
  unfold listModify
  simp only [h, listSet, if_pos h0]
  have e := idsT_set ts ti.toNat (ts[ti.toNat] ++ cs) hlt
  rw [idsTC_append] at e
  have e2 : idsT (ts.set ti.toNat (ts[ti.toNat] ++ cs)) + idsTC ts[ti.toNat]
      = idsT ts + idsTC ts[ti.toNat] + idsTC cs := by
    rw [e]; abel
  exact add_right_cancel (by rw [e2]; abel : idsT (ts.set ti.toNat (ts[ti.toNat] ++ cs))
    + idsTC ts[ti.toNat] = (idsT ts + idsTC cs) + idsTC ts[ti.toNat])

/-! ## Characterizing source resolution -/

theorem resolveSource_ok_cases (g : GameState) (source : PileRef) (mc : List Card)
    (src : MoveSource) (h : resolveSource g source = .ok (mc, src)) :
    (source.kind = .waste ∧ src = .waste ∧
      ∃ c, g.waste.getLast? = some c ∧ mc = [c]) ∨
    (source.kind = .foundation ∧ ∃ i pile c, source.index = some i ∧
      src = .foundation i ∧ listGet? g.foundations i = some pile ∧
      pile.getLast? = some c ∧ mc = [c]) ∨
    (source.kind = .tableau ∧ ∃ i k pile, source.index = some i ∧
      source.card_index = some k ∧ src = .tableau i k ∧
      listGet? g.tableau i = some pile ∧ k < (pile.length : Int) ∧
      (jsSlice pile k).any (fun tc => !tc.face_up) = false ∧
      isValidTableauRun (jsSlice pile k) = true ∧
      mc = (jsSlice pile k).map (·.card)) := by
  unfold resolveSource at h
  cases hk : source.kind with
  | waste =>
    simp only [hk] at h
    cases hw : g.waste.getLast? with
    | none => simp [hw] at h
    | some c =>
      simp only [hw, Except.ok.injEq, Prod.mk.injEq] at h
      obtain ⟨rfl, rfl⟩ := h
      exact Or.inl ⟨rfl, rfl, c, rfl, rfl⟩
  | foundation =>
    simp only [hk] at h
    cases hi : source.index with
    | none => simp [hi] at h
    | some i =>
      simp only [hi] at h
      cases hp : listGet? g.foundations i with
      | none => simp [hp] at h
      | some pile =>
        simp only [hp] at h
        cases hc : pile.getLast? with
        | none => simp [hc] at h
        | some c =>
          simp only [hc, Except.ok.injEq, Prod.mk.injEq] at h
          obtain ⟨rfl, rfl⟩ := h
          exact Or.inr (Or.inl ⟨rfl, i, pile, c, rfl, rfl, hp, hc, rfl⟩)
  | tableau =>
    simp only [hk] at h
    cases hi : source.index with
    | none => simp [hi] at h
    | some i =>
      simp only [hi] at h
      cases hki : source.card_index with
      | none => simp [hki] at h
      | some k =>
        simp only [hki] at h
        cases hp : listGet? g.tableau i with
        | none => simp [hp] at h
        | some pile =>
          simp only [hp] at h
          by_cases hlen : (pile.length : Int) ≤ k
          · simp [if_pos hlen] at h
          · rw [if_neg hlen] at h
            by_cases hface : (jsSlice pile k).any (fun tc => !tc.face_up)
            · rw [if_pos hface] at h
              exact Except.noConfusion h
            · rw [if_neg hface] at h
              by_cases hrun : isValidTableauRun (jsSlice pile k)
              · rw [if_neg (by simp [hrun])] at h
                simp only [Except.ok.injEq, Prod.mk.injEq] at h
                obtain ⟨rfl, rfl⟩ := h
                exact Or.inr (Or.inr ⟨rfl, i, k, pile, rfl, rfl, rfl, hp, by omega,
                  by simpa using hface, hrun, rfl⟩)
              · rw [if_pos (by simp [hrun] : (!isValidTableauRun (jsSlice pile k)) = true)] at h
                exact Except.noConfusion h
  | stock => simp [hk] at h

/-! ## Conservation across a committed removal -/

theorem removeFromSource_ok_props (g : GameState) (source : PileRef) (mc : List Card)
    (src : MoveSource) (g' : GameState)
    (hres : resolveSource g source = .ok (mc, src))
    (hrem : removeFromSource g src = .ok g') :
    stateIds g' + idsC mc = stateIds g ∧
    g'.stock = g.stock ∧
    g'.draw_count = g.draw_count ∧
    g'.foundations.length = g.foundations.length ∧
    g'.tableau.length = g.tableau.length := by
  rcases resolveSource_ok_cases g source mc src hres with
    ⟨-, rfl, c, hw, rfl⟩ | ⟨-, i, pile, c, -, rfl, hp, hc, rfl⟩ |
    ⟨-, i, k, pile, -, -, rfl, hp, hk, -, -, rfl⟩
  · unfold removeFromSource at hrem
    cases hrem
    refine ⟨?_, rfl, rfl, rfl, rfl⟩
    simp only [stateIds]
    rw [idsC_dropLast g.waste c hw]
    abel
  · unfold removeFromSource at hrem
    simp only [hp] at hrem
    cases hrem
    obtain ⟨h0, hlt, hpe⟩ := listGet?_eq_some_elim hp
    refine ⟨?_, rfl, rfl, by simp [listSet_length], rfl⟩
    have e := idsF_set g.foundations i.toNat pile.dropLast hlt
    rw [← hpe, idsC_dropLast pile c hc] at e
    have e2 : idsF (g.foundations.set i.toNat pile.dropLast) + idsC [c]
        = idsF g.foundations := by
      refine add_right_cancel (b := idsC pile.dropLast) ?_
      rw [← e]
      abel
    simp only [stateIds, listSet, if_pos h0]
    rw [← e2]
    abel
  · unfold removeFromSource at hrem
    simp only [hp] at hrem
    rw [if_pos hk.le] at hrem
    by_cases hneg : k < 0
    · rw [if_pos hneg] at hrem
      exact Except.noConfusion hrem
    · rw [if_neg hneg] at hrem
      cases hrem
      obtain ⟨h0, hlt, hpe⟩ := listGet?_eq_some_elim hp
      refine ⟨?_, rfl, rfl, rfl, by simp [listSet_length]⟩
      have hslice : jsSlice pile k = pile.drop k.toNat := by
        unfold jsSlice
        rw [if_pos (not_lt.mp hneg)]
      rw [hslice, idsC_map_card]
      have e := idsT_set g.tableau i.toNat (pile.take k.toNat) hlt
      rw [← hpe] at e
      have hP := idsTC_take_drop pile k.toNat
      have e2 : idsT (g.tableau.set i.toNat (pile.take k.toNat)) + idsTC (pile.drop k.toNat)
          = idsT g.tableau := by
        refine add_right_cancel (b := idsTC (pile.take k.toNat)) ?_
        rw [← hP] at e
        calc idsT (g.tableau.set i.toNat (pile.take k.toNat)) + idsTC (pile.drop k.toNat)
            + idsTC (pile.take k.toNat)
            = idsT (g.tableau.set i.toNat (pile.take k.toNat))
              + (idsTC (pile.take k.toNat) + idsTC (pile.drop k.toNat)) := by abel
          _ = idsT g.tableau + idsTC (pile.take k.toNat) := e
      simp only [stateIds, listSet, if_pos h0]
      rw [← e2]
      abel

/-! ## Conservation across a whole move -/

theorem stateIds_applyMove (g : GameState) (req : MoveRequest) :
    stateIds (applyMove g req).state = stateIds g := by
  unfold applyMove
  cases hres : resolveSource g req.source with
  | error e => rfl
  | ok p =>
    obtain ⟨mc, src⟩ := p
    dsimp only
    by_cases hguard : req.source.kind = .tableau ∧ req.target.kind = .tableau ∧
        req.source.index = req.target.index
    · rw [if_pos hguard]
      rfl
    · rw [if_neg hguard]
      cases ht : req.target.kind with
      | stock => rfl
      | waste => rfl
      | foundation =>
        cases hti : req.target.index with
        | none => rfl
        | some ti =>
          dsimp only
          cases hdp : listGet? g.foundations ti with
          | none => rfl
          | some destPile =>
            dsimp only
            rcases mc with - | ⟨card, - | ⟨c2, cs⟩⟩
            · rfl
            · dsimp only
              by_cases hcan : canPlaceOnFoundation destPile card
              · rw [if_neg (by simp [hcan])]
                cases hrem : removeFromSource g src with
                | error e => rfl
                | ok g' =>
                  dsimp only [MoveOutcome.state]
                  obtain ⟨hids, -, -, hFlen, -⟩ :=
                    removeFromSource_ok_props g req.source [card] src g' hres hrem
                  rw [stateIds_flipTableauTops]
                  have h1 : (listGet? g.foundations ti).isSome := by rw [hdp]; rfl
                  have h2 := listGet?_isSome_iff.mp h1
                  have h3 : (listGet? g'.foundations ti).isSome :=
                    listGet?_isSome_iff.mpr (by rw [hFlen]; exact h2)
                  obtain ⟨q, hq⟩ := Option.isSome_iff_exists.mp h3
                  have hmod := idsF_listModify_append g'.foundations ti q [card] hq
                  simp only [stateIds] at hids ⊢
                  rw [hmod, ← hids]
                  abel
              · rw [if_pos (by simp [hcan])]
                rfl
            · rfl
      | tableau =>
        cases hti : req.target.index with
        | none => rfl
        | some ti =>
          dsimp only
          cases hdp : listGet? g.tableau ti with
          | none => rfl
          | some destPile =>
            dsimp only
            by_cases hempty : mc.isEmpty
            · rw [if_pos hempty]
              rfl
            · rw [if_neg hempty]
              by_cases hcan : canPlaceOnTableau destPile mc
              · rw [if_neg (by simp [hcan])]
                cases hrem : removeFromSource g src with
                | error e => rfl
                | ok g' =>
                  dsimp only [MoveOutcome.state]
                  obtain ⟨hids, -, -, -, hTlen⟩ :=
                    removeFromSource_ok_props g req.source mc src g' hres hrem
                  rw [stateIds_flipTableauTops]
                  have h1 : (listGet? g.tableau ti).isSome := by rw [hdp]; rfl
                  have h2 := listGet?_isSome_iff.mp h1
                  have h3 : (listGet? g'.tableau ti).isSome :=
                    listGet?_isSome_iff.mpr (by rw [hTlen]; exact h2)
                  obtain ⟨q, hq⟩ := Option.isSome_iff_exists.mp h3
                  have hmod := idsT_listModify_append g'.tableau ti q
                    (mc.map fun c => ⟨c, true⟩) hq
                  rw [idsTC_map_faceUp] at hmod
                  simp only [stateIds] at hids ⊢
                  rw [hmod, ← hids]
                  abel
              · rw [if_pos (by simp [hcan])]
                rfl

/-! ## Atomicity: every rejection leaves the state at the throw site
equal to the state before the call -/

theorem applyMove_err_state (g : GameState) (req : MoveRequest) (e : JsErr)
    (s : GameState) (h : applyMove g req = .err e s) : s = g := by
  unfold applyMove at h
  cases hres : resolveSource g req.source with
  | error e' =>
    rw [hres] at h
    cases h
    rfl
  | ok p =>
    obtain ⟨mc, src⟩ := p
    rw [hres] at h
    dsimp only at h
    split at h
    · cases h; rfl
    · split at h
      · -- foundation destination
        split at h
        · cases h; rfl
        · split at h
          · cases h; rfl
          · split at h
            · split at h
              · cases h; rfl
              · split at h
                · cases h; rfl
                · exact MoveOutcome.noConfusion h
            · cases h; rfl
      · -- tableau destination
        split at h
        · cases h; rfl
        · split at h
          · cases h; rfl
          · split at h
            · cases h; rfl
            · split at h
              · cases h; rfl
              · split at h
                · cases h; rfl
                · exact MoveOutcome.noConfusion h
      · cases h; rfl

theorem setDrawCount_err_state (g : GameState) (n : Int) (e : JsErr) (s : GameState)
    (h : setDrawCount g n = .err e s) : s = g := by
  unfold setDrawCount at h
  split at h
  · cases h; rfl
  · exact MoveOutcome.noConfusion h

/-! ## Facts about the deal construction -/

theorem buildPile_spec (n : Nat) : ∀ deck : List Card, n ≤ deck.length →
    ∃ pile, buildPile deck n = some (deck.take (deck.length - n), pile) ∧
      pile.map (·.card) = (deck.drop (deck.length - n)).reverse ∧
      pile.map (·.face_up)
        = List.replicate (n - 1) false ++ List.replicate (min n 1) true := by
  induction n with
  | zero =>
    intro deck h
    exact ⟨[], by simp [buildPile], by simp, by simp⟩
  | succ n ih =>
    intro deck h
    have hne : deck ≠ [] := by
      intro e
      rw [e] at h
      simp at h
    obtain ⟨c, hc⟩ : ∃ c, deck.getLast? = some c := by
      cases hg : deck.getLast? with
      | none => exact absurd (List.getLast?_eq_none_iff.mp hg) hne
      | some c => exact ⟨c, rfl⟩
    have hpop : popCard deck = some (c, deck.dropLast) := by
      unfold popCard
      rw [hc]
    have hdeck : deck = deck.dropLast ++ [c] := dropLast_of_getLast? hc
    have hdl : deck.dropLast.length = deck.length - 1 := by simp
    have hlen' : n ≤ deck.dropLast.length := by omega
    have hle : deck.length - (n + 1) ≤ deck.dropLast.length := by omega
    obtain ⟨rest, hbuild, hcards, hflags⟩ := ih deck.dropLast hlen'
    have htake : deck.dropLast.take (deck.dropLast.length - n)
        = deck.take (deck.length - (n + 1)) := by
      have e : deck.take (deck.length - (n + 1))
          = deck.dropLast.take (deck.length - (n + 1)) := by
        have e0 : (deck.dropLast ++ [c]).take (deck.length - (n + 1))
            = deck.dropLast.take (deck.length - (n + 1)) :=
          List.take_append_of_le_length hle
        rw [← hdeck] at e0
        exact e0
      rw [e]
      congr 1
      omega
    have hdrop : deck.drop (deck.length - (n + 1))
        = deck.dropLast.drop (deck.dropLast.length - n) ++ [c] := by
      have e : deck.drop (deck.length - (n + 1))
          = deck.dropLast.drop (deck.length - (n + 1)) ++ [c] := by
        have e0 : (deck.dropLast ++ [c]).drop (deck.length - (n + 1))
            = deck.dropLast.drop (deck.length - (n + 1)) ++ [c] :=
          List.drop_append_of_le_length hle
        rw [← hdeck] at e0
        exact e0
      rw [e]
      congr 2
      omega
    refine ⟨⟨c, n == 0⟩ :: rest, ?_, ?_, ?_⟩
    · simp only [buildPile, hpop, hbuild, htake]
    · simp only [List.map_cons, hcards, hdrop, List.reverse_append, List.reverse_cons,
        List.reverse_nil, List.nil_append, List.singleton_append]
    · cases n with
      | zero =>
        have hrest : rest = [] := by
          have := congrArg List.length hcards
          simp at this
          exact this
        subst hrest
        simp
      | succ m =>
        simp only [List.map_cons, hflags]
        have hm1 : min (m + 1) 1 = 1 := min_eq_right (by omega)
        have hm2 : min (m + 1 + 1) 1 = 1 := min_eq_right (by omega)
        rw [show ((m + 1 : Nat) == 0) = false by simp, hm1, hm2]
        simp [List.replicate_succ]

/-- Total number of cards consumed when dealing `m` piles starting at pile
index `i` (pile index `p` receives `p + 1` cards). -/
def dealTotal : Nat → Nat → Nat
  | 0, _ => 0
  | m + 1, i => (i + 1) + dealTotal m (i + 1)

/-- The multiset of cards in a list of foundation piles. -/
def cardsF : List (List Card) → Multiset Card
  | [] => 0
  | p :: rest => ↑p + cardsF rest

/-- The multiset of cards in a list of tableau piles. -/
def cardsT : List (List TableauCard) → Multiset Card
  | [] => 0
  | p :: rest => ↑(p.map (·.card)) + cardsT rest

/-- All cards present in a game state, as a multiset. -/
def stateCards (g : GameState) : Multiset Card :=
  ↑g.stock + ↑g.waste + cardsF g.foundations + cardsT g.tableau

theorem dealTotal_succ (m i : Nat) : dealTotal (m + 1) i = (i + 1) + dealTotal m (i + 1) :=
  rfl

theorem dealPiles_spec (m : Nat) : ∀ (deck : List Card) (i : Nat),
    dealTotal m i ≤ deck.length →
    ∃ deck' piles, dealPiles deck i m = some (deck', piles) ∧
      piles.length = m ∧
      deck'.length = deck.length - dealTotal m i ∧
      (∀ j, j < m → ∃ p, piles[j]? = some p ∧ p.length = i + j + 1 ∧
        p.map (·.face_up) = List.replicate (i + j) false ++ [true]) ∧
      ↑deck' + cardsT piles = (↑deck : Multiset Card) := by
  induction m with
  | zero =>
    intro deck i h
    refine ⟨deck, [], by simp [dealPiles], rfl, by simp [dealTotal], ?_, by simp [cardsT]⟩
    intro j hj
    exact absurd hj (by omega)
  | succ m ih =>
    intro deck i h
    rw [dealTotal_succ] at h
    have h1 : i + 1 ≤ deck.length := by omega
    obtain ⟨pile, hbuild, hcards, hflags⟩ := buildPile_spec (i + 1) deck h1
    have htlen : (deck.take (deck.length - (i + 1))).length = deck.length - (i + 1) := by
      simp
    have h2 : dealTotal m (i + 1) ≤ (deck.take (deck.length - (i + 1))).length := by
      omega
    obtain ⟨deck'', piles, hdeal, hplen, hdlen, hget, hcons⟩ :=
      ih (deck.take (deck.length - (i + 1))) (i + 1) h2
    refine ⟨deck'', pile :: piles, ?_, by simp [hplen], ?_, ?_, ?_⟩
    · simp only [dealPiles, hbuild, hdeal]
    · rw [hdlen, htlen, dealTotal_succ]
      omega
    · intro j hj
      cases j with
      | zero =>
        have hpl : pile.length = i + 1 := by
          have e := congrArg List.length hcards
          simp at e
          omega
        refine ⟨pile, by simp, by simpa using hpl, ?_⟩
        have e : min (i + 1) 1 = 1 := min_eq_right (by omega)
        rw [e] at hflags
        simpa using hflags
      | succ j' =>
        have hj' : j' < m := by omega
        obtain ⟨p, hp, e1, e2⟩ := hget j' hj'
        refine ⟨p, by simpa using hp, by omega, ?_⟩
        have e : i + 1 + j' = i + (j' + 1) := by omega
        rw [← e]
        exact e2
    · have e1 : cardsT (pile :: piles) = ↑(pile.map (·.card)) + cardsT piles := rfl
      rw [e1, hcards]
      have e2 : (↑((deck.drop (deck.length - (i + 1))).reverse) : Multiset Card)
          = ↑(deck.drop (deck.length - (i + 1))) := by
        rw [Multiset.coe_reverse]
      rw [e2]
      calc (↑deck'' : Multiset Card) + (↑(deck.drop (deck.length - (i + 1)))
            + cardsT piles)
          = (↑deck'' + cardsT piles) + ↑(deck.drop (deck.length - (i + 1))) := by abel
        _ = ↑(deck.take (deck.length - (i + 1)))
            + ↑(deck.drop (deck.length - (i + 1))) := by rw [hcons]
        _ = ↑(deck.take (deck.length - (i + 1)) ++ deck.drop (deck.length - (i + 1))) := by
            rfl
        _ = ↑deck := by rw [List.take_append_drop]

theorem newGameState_spec (rand : Nat → Nat) :
    ∃ g, newGameState rand = some g ∧
      g.waste = [] ∧ g.foundations = [[], [], [], []] ∧ g.draw_count = 3 ∧
      g.tableau.length = 7 ∧ g.stock.length = 24 ∧
      (∀ j, j < 7 → ∃ p, g.tableau[j]? = some p ∧ p.length = j + 1 ∧
        p.map (·.face_up) = List.replicate j false ++ [true]) ∧
      ↑g.stock + cardsT g.tableau = (↑standardDeck : Multiset Card) := by
  have hlen : (shuffle standardDeck rand).length = 52 := by
    rw [shuffle_length]
    rfl
  have h28 : dealTotal 7 0 ≤ (shuffle standardDeck rand).length := by
    rw [hlen]
    decide
  obtain ⟨deck', piles, hdeal, hplen, hdlen, hget, hcons⟩ :=
    dealPiles_spec 7 (shuffle standardDeck rand) 0 h28
  refine ⟨{ stock := deck', waste := [], foundations := [[], [], [], []],
            tableau := piles, draw_count := 3 }, ?_, rfl, rfl, rfl,
          by simpa using hplen, ?_, ?_, ?_⟩
  · unfold newGameState
    rw [hdeal]
  · rw [hdlen, hlen]
    decide
  · intro j hj
    obtain ⟨p, hp, e1, e2⟩ := hget j hj
    exact ⟨p, hp, by simpa using e1, by simpa using e2⟩
  · rw [hcons]
    exact Multiset.coe_eq_coe.mpr (shuffle_perm standardDeck rand)

theorem idsC_eq_map (l : List Card) :
    idsC l = Multiset.map (fun c => c.id) (↑l : Multiset Card) := by
  simp [idsC]

theorem idsF_eq_map (fs : List (List Card)) :
    idsF fs = Multiset.map (fun c => c.id) (cardsF fs) := by
  induction fs with
  | nil => rfl
  | cons p rest ih =>
    simp only [idsF, cardsF, Multiset.map_add, ih, idsC_eq_map]

theorem idsT_eq_map (ts : List (List TableauCard)) :
    idsT ts = Multiset.map (fun c => c.id) (cardsT ts) := by
  induction ts with
  | nil => rfl
  | cons p rest ih =>
    simp only [idsT, cardsT, Multiset.map_add, ih]
    congr 1
    simp [idsTC, List.map_map]
    rfl

theorem stateIds_eq_map (g : GameState) :
    stateIds g = Multiset.map (fun c => c.id) (stateCards g) := by
  simp only [stateIds, stateCards, Multiset.map_add, idsC_eq_map, idsF_eq_map, idsT_eq_map]

theorem standardDeck_ids :
    Multiset.map (fun c => c.id) (↑standardDeck : Multiset Card) = stdIds := by
  decide

theorem stateIds_newGameState (rand : Nat → Nat) (g : GameState)
    (h : newGameState rand = some g) : stateIds g = stdIds := by
  obtain ⟨g', hg', hw, hf, hdc, htl, hsl, hget, hcards⟩ := newGameState_spec rand
  rw [h] at hg'
  cases hg'
  rw [stateIds_eq_map]
  have e : stateCards g = ↑g.stock + cardsT g.tableau := by
    simp only [stateCards, hw, hf]
    simp [cardsF]
  rw [e, hcards, standardDeck_ids]

/-! ## Reachability induction -/

theorem reachable_invariant (P : GameState → Prop)
    (hnew : ∀ rand g, newGameState rand = some g → P g)
    (hstep : ∀ a b, Step a b → P a → P b) :
    ∀ g, Reachable g → P g := by
  rintro g ⟨rand, g₀, h0, hsteps⟩
  induction hsteps with
  | refl => exact hnew rand g₀ h0
  | tail hab hbc ih => exact hstep _ _ hbc ih

theorem stateIds_setDrawCount (g : GameState) (n : Int) :
    stateIds (setDrawCount g n).state = stateIds g := by
  unfold setDrawCount
  split <;> rfl

theorem stateIds_step (a b : GameState) (h : Step a b) : stateIds b = stateIds a := by
  cases h with
  | draw => exact stateIds_drawInternal a
  | move req => exact stateIds_applyMove a req
  | setDC n => exact stateIds_setDrawCount a n

theorem reachable_stateIds (g : GameState) (h : Reachable g) : stateIds g = stdIds :=
  reachable_invariant (fun s => stateIds s = stdIds)
    (fun rand g₀ h0 => stateIds_newGameState rand g₀ h0)
    (fun a b hs ha => (stateIds_step a b hs).trans ha) g h

/-! ## Characterizing successful moves -/

theorem applyMove_ok_cases (g : GameState) (req : MoveRequest) (gf : GameState)
    (h : applyMove g req = .ok gf) :
    ∃ mc src g', resolveSource g req.source = .ok (mc, src) ∧
      removeFromSource g src = .ok g' ∧
      ¬(req.source.kind = .tableau ∧ req.target.kind = .tableau ∧
          req.source.index = req.target.index) ∧
      ((∃ ti destPile card, req.target.kind = .foundation ∧
          req.target.index = some ti ∧
          listGet? g.foundations ti = some destPile ∧ mc = [card] ∧
          canPlaceOnFoundation destPile card = true ∧
          gf = flipTableauTops
            { g' with foundations := listModify g'.foundations ti (· ++ [card]) }) ∨
       (∃ ti destPile, req.target.kind = .tableau ∧
          req.target.index = some ti ∧
          listGet? g.tableau ti = some destPile ∧ mc ≠ [] ∧
          canPlaceOnTableau destPile mc = true ∧
          gf = flipTableauTops
            { g' with
                tableau := listModify g'.tableau ti
                  (· ++ mc.map fun c => ⟨c, true⟩) })) := by
  unfold applyMove at h
  cases hres : resolveSource g req.source with
  | error e =>
    rw [hres] at h
    exact MoveOutcome.noConfusion h
  | ok p =>
    obtain ⟨mc, src⟩ := p
    rw [hres] at h
    dsimp only at h
    by_cases hguard : req.source.kind = .tableau ∧ req.target.kind = .tableau ∧
        req.source.index = req.target.index
    · rw [if_pos hguard] at h
      exact MoveOutcome.noConfusion h
    · rw [if_neg hguard] at h
      cases ht : req.target.kind with
      | stock => rw [ht] at h; exact MoveOutcome.noConfusion h
      | waste => rw [ht] at h; exact MoveOutcome.noConfusion h
      | foundation =>
        rw [ht] at h
        cases hti : req.target.index with
        | none => rw [hti] at h; exact MoveOutcome.noConfusion h
        | some ti =>
          rw [hti] at h
          dsimp only at h
          cases hdp : listGet? g.foundations ti with
          | none => rw [hdp] at h; exact MoveOutcome.noConfusion h
          | some destPile =>
            rw [hdp] at h
            dsimp only at h
            rcases mc with - | ⟨card, - | ⟨c2, cs⟩⟩
            · exact MoveOutcome.noConfusion h
            · dsimp only at h
              by_cases hcan : canPlaceOnFoundation destPile card
              · rw [if_neg (by simp [hcan])] at h
                cases hrem : removeFromSource g src with
                | error e =>
                  rw [hrem] at h
                  exact MoveOutcome.noConfusion h
                | ok g' =>
                  rw [hrem] at h
                  cases h
                  refine ⟨[card], src, g', rfl, hrem, ?_,
                    Or.inl ⟨ti, destPile, card, rfl, rfl, hdp, rfl, hcan, rfl⟩⟩
                  simp only [ht, hti] at hguard
                  exact hguard
              · rw [if_pos (by simp [hcan])] at h
                exact MoveOutcome.noConfusion h
            · exact MoveOutcome.noConfusion h
      | tableau =>
        rw [ht] at h
        cases hti : req.target.index with
        | none => rw [hti] at h; exact MoveOutcome.noConfusion h
        | some ti =>
          rw [hti] at h
          dsimp only at h
          cases hdp : listGet? g.tableau ti with
          | none => rw [hdp] at h; exact MoveOutcome.noConfusion h
          | some destPile =>
            rw [hdp] at h
            dsimp only at h
            by_cases hempty : mc.isEmpty
            · rw [if_pos hempty] at h
              exact MoveOutcome.noConfusion h
            · rw [if_neg hempty] at h
              by_cases hcan : canPlaceOnTableau destPile mc
              · rw [if_neg (by simp [hcan])] at h
                cases hrem : removeFromSource g src with
                | error e =>
                  rw [hrem] at h
                  exact MoveOutcome.noConfusion h
                | ok g' =>
                  rw [hrem] at h
                  cases h
                  refine ⟨mc, src, g', rfl, hrem, ?_,
                    Or.inr ⟨ti, destPile, rfl, rfl, hdp,
                      by simpa using hempty, hcan, rfl⟩⟩
                  simp only [ht, hti] at hguard
                  simpa using hguard
              · rw [if_pos (by simp [hcan])] at h
                exact MoveOutcome.noConfusion h

theorem removeFromSource_waste_eq (g : GameState) :
    removeFromSource g .waste = .ok { g with waste := g.waste.dropLast } := rfl

theorem removeFromSource_foundation_eq (g : GameState) (i : Int) (pile : List Card)
    (hp : listGet? g.foundations i = some pile) :
    removeFromSource g (.foundation i)
      = .ok { g with foundations := listSet g.foundations i pile.dropLast } := by
  unfold removeFromSource
  dsimp only
  rw [hp]

theorem removeFromSource_tableau_eq (g : GameState) (i k : Int)
    (pile : List TableauCard) (hp : listGet? g.tableau i = some pile)
    (hk : k ≤ (pile.length : Int)) (h0 : 0 ≤ k) :
    removeFromSource g (.tableau i k)
      = .ok { g with tableau := listSet g.tableau i (pile.take k.toNat) } := by
  unfold removeFromSource
  dsimp only
  rw [hp]
  dsimp only
  rw [if_pos hk, if_neg (not_lt.mpr h0)]

theorem removeFromSource_tableau_rangeError (g : GameState) (i k : Int)
    (pile : List TableauCard) (hp : listGet? g.tableau i = some pile)
    (hneg : k < 0) :
    removeFromSource g (.tableau i k) = .error .rangeError := by
  unfold removeFromSource
  dsimp only
  rw [hp]
  dsimp only
  rw [if_pos (by omega : k ≤ (pile.length : Int)), if_pos hneg]

theorem applyMove_foundation_eq (g : GameState) (req : MoveRequest)
    (src : MoveSource) (card : Card) (ti : Int) (destPile : List Card) (g' : GameState)
    (hres : resolveSource g req.source = .ok ([card], src))
    (ht : req.target.kind = .foundation)
    (hti : req.target.index = some ti)
    (hdp : listGet? g.foundations ti = some destPile)
    (hcan : canPlaceOnFoundation destPile card = true)
    (hrem : removeFromSource g src = .ok g') :
    applyMove g req = .ok (flipTableauTops
      { g' with foundations := listModify g'.foundations ti (· ++ [card]) }) := by
  unfold applyMove
  rw [hres]
  dsimp only
  rw [if_neg (by rw [ht]; rintro ⟨-, h2, -⟩; exact PileKind.noConfusion h2)]
  rw [ht, hti]
  dsimp only
  rw [hdp]
  dsimp only
  rw [if_neg (by simp [hcan]), hrem]

theorem applyMove_tableau_eq (g : GameState) (req : MoveRequest) (mc : List Card)
    (src : MoveSource) (ti : Int) (destPile : List TableauCard) (g' : GameState)
    (hres : resolveSource g req.source = .ok (mc, src))
    (ht : req.target.kind = .tableau)
    (hti : req.target.index = some ti)
    (hguard : ¬(req.source.kind = .tableau ∧ req.source.index = some ti))
    (hdp : listGet? g.tableau ti = some destPile)
    (hne : mc ≠ [])
    (hcan : canPlaceOnTableau destPile mc = true)
    (hrem : removeFromSource g src = .ok g') :
    applyMove g req = .ok (flipTableauTops
      { g' with tableau := listModify g'.tableau ti (· ++ mc.map fun c => ⟨c, true⟩) }) := by
  unfold applyMove
  rw [hres]
  dsimp only
  rw [if_neg (by rw [hti]; rintro ⟨h1, -, h3⟩; exact hguard ⟨h1, h3⟩)]
  rw [ht, hti]
  dsimp only
  rw [hdp]
  dsimp only
  rw [if_neg (by simpa using hne), if_neg (by simp [hcan]), hrem]

/-! ## Bool/Prop bridges for the rule predicates -/

/-- The spec's descending alternating-color relation between consecutive
tableau cards. -/
def tableauAdj (a b : TableauCard) : Prop :=
  a.card.rank = b.card.rank + 1 ∧ isRed a.card.suit ≠ isRed b.card.suit

theorem runPairsOk_iff (l : List TableauCard) :
    runPairsOk l = true ↔ List.Chain' tableauAdj l := by
  induction l with
  | nil => simp [runPairsOk]
  | cons a t ih =>
    cases t with
    | nil => simp [runPairsOk]
    | cons b rest =>
      rw [List.chain'_cons, ← ih]
      have e : runPairsOk (a :: b :: rest)
          = ((a.card.rank == b.card.rank + 1) &&
              (isRed a.card.suit != isRed b.card.suit) && runPairsOk (b :: rest)) := rfl
      rw [e]
      simp only [Bool.and_eq_true, beq_iff_eq, bne_iff_ne, ne_eq, tableauAdj, and_assoc]

theorem isValidTableauRun_iff (l : List TableauCard) :
    isValidTableauRun l = true ↔ l ≠ [] ∧ List.Chain' tableauAdj l := by
  unfold isValidTableauRun
  rw [Bool.and_eq_true, runPairsOk_iff]
  simp [List.isEmpty_iff]

theorem canPlaceOnFoundation_iff (pile : List Card) (c : Card) :
    canPlaceOnFoundation pile c = true ↔
      ((pile = [] ∧ c.rank = 1) ∨
       (∃ top, pile.getLast? = some top ∧ top.suit = c.suit ∧ c.rank = top.rank + 1)) := by
  unfold canPlaceOnFoundation
  cases h : pile.getLast? with
  | none =>
    have : pile = [] := List.getLast?_eq_none_iff.mp h
    simp [this, beq_iff_eq]
  | some top =>
    have : pile ≠ [] := by
      intro e
      rw [e] at h
      simp at h
    simp only [Bool.and_eq_true, beq_iff_eq]
    constructor
    · rintro ⟨h1, h2⟩
      exact Or.inr ⟨top, rfl, h1, h2⟩
    · rintro (⟨he, -⟩ | ⟨top', ht', h1, h2⟩)
      · exact absurd he this
      · cases ht'
        exact ⟨h1, h2⟩

theorem canPlaceOnTableau_iff (pile : List TableauCard) (lead : Card) (rest : List Card) :
    canPlaceOnTableau pile (lead :: rest) = true ↔
      ((pile = [] ∧ lead.rank = 13) ∨
       (∃ top, pile.getLast? = some top ∧ top.face_up = true ∧
         isRed top.card.suit ≠ isRed lead.suit ∧ top.card.rank = lead.rank + 1)) := by
  unfold canPlaceOnTableau
  dsimp only
  cases h : pile.getLast? with
  | none =>
    have hnil : pile = [] := List.getLast?_eq_none_iff.mp h
    subst hnil
    simp [beq_iff_eq]
  | some top =>
    dsimp only
    have hne : pile ≠ [] := by
      intro e
      subst e
      simp at h
    by_cases hf : top.face_up = true
    · rw [if_neg (by simp [hf])]
      simp only [Bool.and_eq_true, beq_iff_eq, bne_iff_ne, ne_eq]
      constructor
      · rintro ⟨h1, h2⟩
        exact Or.inr ⟨top, rfl, hf, h2, h1⟩
      · rintro (⟨he, -⟩ | ⟨top', ht', -, h2, h3⟩)
        · exact absurd he hne
        · cases ht'
          exact ⟨h3, h2⟩
    · have hf' : top.face_up = false := by simpa using hf
      rw [if_pos (by simp [hf'])]
      constructor
      · intro e
        exact absurd e (by simp)
      · rintro (⟨he, -⟩ | ⟨top', ht', hfu, -⟩)
        · exact absurd he hne
        · cases ht'
          exact absurd hfu hf

theorem any_faceDown_eq_false_iff (l : List TableauCard) :
    (l.any fun tc => !tc.face_up) = false ↔ ∀ tc ∈ l, tc.face_up = true := by
  simp

/-! ## More index lemmas -/

theorem listGet?_listSet_ne (l : List α) (i j : Int) (x : α) (hij : i ≠ j) :
    listGet? (listSet l i x) j = listGet? l j := by
  unfold listSet
  by_cases h0 : 0 ≤ i
  · rw [if_pos h0]
    unfold listGet?
    by_cases hj : 0 ≤ j ∧ j.toNat < l.length
    · have hj' : 0 ≤ j ∧ j.toNat < (l.set i.toNat x).length := by simpa using hj
      rw [dif_pos hj', dif_pos hj]
      have hne : i.toNat ≠ j.toNat := by omega
      simp only [List.get_eq_getElem]
      congr 1
      rw [List.getElem_set]
      rw [if_neg hne]
    · have hj' : ¬(0 ≤ j ∧ j.toNat < (l.set i.toNat x).length) := by simpa using hj
      rw [dif_neg hj', dif_neg hj]
  · rw [if_neg h0]

theorem listGet?_map (l : List α) (f : α → β) (j : Int) :
    listGet? (l.map f) j = (listGet? l j).map f := by
  unfold listGet?
  by_cases hj : 0 ≤ j ∧ j.toNat < l.length
  · have hj' : 0 ≤ j ∧ j.toNat < (l.map f).length := by simpa using hj
    rw [dif_pos hj', dif_pos hj]
    simp
  · have hj' : ¬(0 ≤ j ∧ j.toNat < (l.map f).length) := by simpa using hj
    rw [dif_neg hj', dif_neg hj]
    rfl

theorem flipTop_of_faceUp_last (p : List TableauCard) (tc : TableauCard)
    (h : p.getLast? = some tc) (hf : tc.face_up = true) : flipTop p = p := by
  unfold flipTop
  rw [h]
  dsimp only
  rw [if_pos hf]

/-! ## Building successful resolutions -/

theorem resolveSource_waste_eq (g : GameState) (source : PileRef) (c : Card)
    (hk : source.kind = .waste) (hw : g.waste.getLast? = some c) :
    resolveSource g source = .ok ([c], .waste) := by
  unfold resolveSource
  rw [hk]
  dsimp only
  rw [hw]

theorem resolveSource_foundation_eq (g : GameState) (source : PileRef) (i : Int)
    (pile : List Card) (c : Card) (hk : source.kind = .foundation)
    (hi : source.index = some i) (hp : listGet? g.foundations i = some pile)
    (hc : pile.getLast? = some c) :
    resolveSource g source = .ok ([c], .foundation i) := by
  unfold resolveSource
  rw [hk]
  dsimp only
  rw [hi]
  dsimp only
  rw [hp]
  dsimp only
  rw [hc]

theorem resolveSource_tableau_eq (g : GameState) (source : PileRef) (i k : Int)
    (pile : List TableauCard) (hk : source.kind = .tableau)
    (hi : source.index = some i) (hci : source.card_index = some k)
    (hp : listGet? g.tableau i = some pile) (hlen : k < (pile.length : Int))
    (hface : (jsSlice pile k).any (fun tc => !tc.face_up) = false)
    (hrun : isValidTableauRun (jsSlice pile k) = true) :
    resolveSource g source = .ok ((jsSlice pile k).map (·.card), .tableau i k) := by
  unfold resolveSource
  rw [hk]
  dsimp only
  rw [hi]
  dsimp only
  rw [hci]
  dsimp only
  rw [hp]
  dsimp only
  rw [if_neg (by omega), if_neg (by simp [hface]), if_neg (by simp [hrun])]

/-- A resolved source whose commit does not fault: the only faulting case
is a tableau source with a negative card index (the JS `RangeError`). -/
def sourceSafe : MoveSource → Prop
  | .tableau _ k => 0 ≤ k
  | _ => True

theorem removeFromSource_ok_of_safe (g : GameState) (source : PileRef) (mc : List Card)
    (src : MoveSource) (hres : resolveSource g source = .ok (mc, src))
    (hsafe : sourceSafe src) : ∃ g', removeFromSource g src = .ok g' := by
  rcases resolveSource_ok_cases g source mc src hres with
    ⟨-, rfl, c, hw, rfl⟩ | ⟨-, i, pile, c, -, rfl, hp, hc, rfl⟩ |
    ⟨-, i, k, pile, -, -, rfl, hp, hk, -, -, rfl⟩
  · exact ⟨_, removeFromSource_waste_eq g⟩
  · exact ⟨_, removeFromSource_foundation_eq g i pile hp⟩
  · exact ⟨_, removeFromSource_tableau_eq g i k pile hp hk.le hsafe⟩

theorem sourceSafe_of_removeFromSource_ok (g : GameState) (source : PileRef)
    (mc : List Card) (src : MoveSource) (g' : GameState)
    (hres : resolveSource g source = .ok (mc, src))
    (hrem : removeFromSource g src = .ok g') : sourceSafe src := by
  rcases resolveSource_ok_cases g source mc src hres with
    ⟨-, rfl, c, hw, rfl⟩ | ⟨-, i, pile, c, -, rfl, hp, hc, rfl⟩ |
    ⟨-, i, k, pile, -, -, rfl, hp, hk, -, -, rfl⟩
  · trivial
  · trivial
  · show 0 ≤ k
    by_contra hneg
    rw [removeFromSource_tableau_rangeError g i k pile hp (by omega)] at hrem
    exact Except.noConfusion hrem

/-! ## The foundation-move success criterion -/

theorem foundationMove_iff (g : GameState) (req : MoveRequest) (ti : Int)
    (destPile : List Card)
    (ht : req.target.kind = .foundation)
    (hti : req.target.index = some ti)
    (hdp : listGet? g.foundations ti = some destPile) :
    (applyMove g req).isOk = true ↔
      ∃ c src, resolveSource g req.source = .ok ([c], src) ∧ sourceSafe src ∧
        canPlaceOnFoundation destPile c = true := by
  constructor
  · intro hok
    cases hout : applyMove g req with
    | err e s =>
      rw [hout] at hok
      exact Bool.noConfusion hok
    | ok gf =>
      obtain ⟨mc, src, g', hres, hrem, -, hcase⟩ := applyMove_ok_cases g req gf hout
      rcases hcase with ⟨ti', destPile', card, -, hti', hdp', rfl, hcan, -⟩ |
        ⟨-, -, htk, -, -, -, -, -⟩
      · have hti'' : ti' = ti := by
          rw [hti] at hti'
          exact Option.some_inj.mp hti'.symm
        subst hti''
        rw [hdp] at hdp'
        cases hdp'
        exact ⟨card, src, hres,
          sourceSafe_of_removeFromSource_ok g req.source [card] src g' hres hrem, hcan⟩
      · rw [ht] at htk
        exact PileKind.noConfusion htk
  · rintro ⟨c, src, hres, hsafe, hcan⟩
    obtain ⟨g', hrem⟩ := removeFromSource_ok_of_safe g req.source [c] src hres hsafe
    rw [applyMove_foundation_eq g req src c ti destPile g' hres ht hti hdp hcan hrem]
    rfl

/-! ## The foundation build-order invariant -/

/-- A foundation pile reads Ace, 2, 3, ... of a single suit. -/
def FoundationOrdered (p : List Card) : Prop :=
  ∃ s : Suit, ∀ i (h : i < p.length),
    (p.get ⟨i, h⟩).suit = s ∧ (p.get ⟨i, h⟩).rank = (i : Int) + 1

/-- Every foundation pile of the state is correctly built. -/
def FoundationsOrdered (g : GameState) : Prop :=
  ∀ p ∈ g.foundations, FoundationOrdered p

theorem foundationOrdered_nil : FoundationOrdered [] :=
  ⟨.hearts, fun i h => absurd h (by simp)⟩

theorem foundationOrdered_dropLast (p : List Card) (h : FoundationOrdered p) :
    FoundationOrdered p.dropLast := by
  obtain ⟨s, hs⟩ := h
  refine ⟨s, fun i hi => ?_⟩
  have hi' : i < p.length := by
    simp at hi
    omega
  have e : p.dropLast.get ⟨i, hi⟩ = p.get ⟨i, hi'⟩ := by
    simp only [List.get_eq_getElem]
    exact List.getElem_dropLast ..
  rw [e]
  exact hs i hi'

theorem foundationOrdered_getLast (p : List Card) (top : Card) (s : Suit)
    (hl : p.getLast? = some top)
    (hs : ∀ i (h : i < p.length),
      (p.get ⟨i, h⟩).suit = s ∧ (p.get ⟨i, h⟩).rank = (i : Int) + 1) :
    top.suit = s ∧ top.rank = (p.length : Int) := by
  obtain ⟨l', rfl⟩ := List.getLast?_eq_some_iff.mp hl
  have hlt : l'.length < (l' ++ [top]).length := by simp
  have e : (l' ++ [top]).get ⟨l'.length, hlt⟩ = top := by
    simp only [List.get_eq_getElem]
    rw [List.getElem_append_right (by omega)]
    simp
  obtain ⟨e1, e2⟩ := hs l'.length hlt
  rw [e] at e1 e2
  refine ⟨e1, ?_⟩
  rw [e2]
  simp

theorem foundationOrdered_append (p : List Card) (c : Card)
    (h : FoundationOrdered p) (hcan : canPlaceOnFoundation p c = true) :
    FoundationOrdered (p ++ [c]) := by
  obtain ⟨s, hs⟩ := h
  rcases (canPlaceOnFoundation_iff p c).mp hcan with ⟨rfl, hrank⟩ |
    ⟨top, hl, hsuit, hrank⟩
  · refine ⟨c.suit, fun i hi => ?_⟩
    have : i = 0 := by
      simp at hi
      omega
    subst this
    exact ⟨rfl, by simpa using hrank⟩
  · obtain ⟨htops, htopr⟩ := foundationOrdered_getLast p top s hl hs
    refine ⟨s, fun i hi => ?_⟩
    by_cases hip : i < p.length
    · have e : (p ++ [c]).get ⟨i, hi⟩ = p.get ⟨i, hip⟩ := by
        simp only [List.get_eq_getElem]
        exact List.getElem_append_left ..
      rw [e]
      exact hs i hip
    · have hie : i = p.length := by
        simp at hi
        omega
      subst hie
      have e : (p ++ [c]).get ⟨p.length, hi⟩ = c := by
        simp only [List.get_eq_getElem]
        rw [List.getElem_append_right (by omega)]
        simp
      rw [e]
      exact ⟨by rw [← hsuit, htops], by rw [hrank, htopr]⟩

theorem flipTableauTops_foundations (g : GameState) :
    (flipTableauTops g).foundations = g.foundations := rfl

theorem drawInternal_foundations (g : GameState) :
    (drawInternal g).foundations = g.foundations := by
  by_cases hs : g.stock.isEmpty
  · by_cases hw : g.waste.isEmpty
    · rw [drawInternal_both_empty g hs hw]
    · rw [drawInternal_recycle g hs hw]
  · rw [drawInternal_stock_nonempty g hs]

theorem setDrawCount_state_foundations (g : GameState) (n : Int) :
    (setDrawCount g n).state.foundations = g.foundations := by
  unfold setDrawCount
  split <;> rfl

theorem mem_listSet {l : List α} {i : Int} {x p : α} (h : p ∈ listSet l i x) :
    p = x ∨ p ∈ l := by
  unfold listSet at h
  split at h
  · rcases List.mem_or_eq_of_mem_set h with h' | h'
    · exact Or.inr h'
    · exact Or.inl h'
  · exact Or.inr h

theorem mem_listModify {l : List α} {i : Int} {f : α → α} {p : α}
    (h : p ∈ listModify l i f) :
    (∃ q, listGet? l i = some q ∧ p = f q) ∨ p ∈ l := by
  unfold listModify at h
  cases hq : listGet? l i with
  | none =>
    rw [hq] at h
    exact Or.inr h
  | some q =>
    rw [hq] at h
    rcases mem_listSet h with h' | h'
    · exact Or.inl ⟨q, rfl, h'⟩
    · exact Or.inr h'

theorem removeFromSource_foundations_cases (g : GameState) (source : PileRef)
    (mc : List Card) (src : MoveSource) (g' : GameState)
    (hres : resolveSource g source = .ok (mc, src))
    (hrem : removeFromSource g src = .ok g') :
    g'.foundations = g.foundations ∨
    (∃ i pile c, listGet? g.foundations i = some pile ∧ pile.getLast? = some c ∧
      mc = [c] ∧ g'.foundations = listSet g.foundations i pile.dropLast) := by
  rcases resolveSource_ok_cases g source mc src hres with
    ⟨-, rfl, c, hw, rfl⟩ | ⟨-, i, pile, c, -, rfl, hp, hc, rfl⟩ |
    ⟨-, i, k, pile, -, -, rfl, hp, hk, -, -, rfl⟩
  · rw [removeFromSource_waste_eq g] at hrem
    cases hrem
    exact Or.inl rfl
  · rw [removeFromSource_foundation_eq g i pile hp] at hrem
    cases hrem
    exact Or.inr ⟨i, pile, c, hp, hc, rfl, rfl⟩
  · have hsafe : sourceSafe (.tableau i k) :=
      sourceSafe_of_removeFromSource_ok g source _ _ g' hres hrem
    rw [removeFromSource_tableau_eq g i k pile hp hk.le hsafe] at hrem
    cases hrem
    exact Or.inl rfl

theorem mem_of_listGet? {l : List α} {i : Int} {p : α} (h : listGet? l i = some p) :
    p ∈ l := by
  obtain ⟨h0, hlt, rfl⟩ := listGet?_eq_some_elim h
  exact List.getElem_mem hlt

theorem removeFromSource_foundationsOrdered (g : GameState) (source : PileRef)
    (mc : List Card) (src : MoveSource) (g' : GameState)
    (hres : resolveSource g source = .ok (mc, src))
    (hrem : removeFromSource g src = .ok g')
    (h : FoundationsOrdered g) : ∀ p ∈ g'.foundations, FoundationOrdered p := by
  rcases removeFromSource_foundations_cases g source mc src g' hres hrem with
    he | ⟨i, pile, c, hp, hc, -, he⟩
  · rw [he]
    exact h
  · rw [he]
    intro p hmem
    rcases mem_listSet hmem with rfl | hmem'
    · exact foundationOrdered_dropLast pile (h pile (mem_of_listGet? hp))
    · exact h p hmem'

theorem applyMove_foundationsOrdered (g : GameState) (req : MoveRequest)
    (h : FoundationsOrdered g) : FoundationsOrdered (applyMove g req).state := by
  cases hout : applyMove g req with
  | err e s =>
    have : s = g := applyMove_err_state g req e s hout
    subst this
    exact h
  | ok gf =>
    show FoundationsOrdered gf
    obtain ⟨mc, src, g', hres, hrem, -, hcase⟩ := applyMove_ok_cases g req gf hout
    have hord' : ∀ p ∈ g'.foundations, FoundationOrdered p :=
      removeFromSource_foundationsOrdered g req.source mc src g' hres hrem h
    rcases hcase with ⟨ti, destPile, card, -, -, hdp, hmc, hcan, rfl⟩ |
      ⟨ti, destPile, -, -, -, -, -, rfl⟩
    · intro p hmem
      rw [flipTableauTops_foundations] at hmem
      dsimp only at hmem
      rcases mem_listModify hmem with ⟨q, hq, rfl⟩ | hmem'
      · -- appended pile: identify q with destPile or rule out the aliased case
        rcases removeFromSource_foundations_cases g req.source mc src g' hres hrem with
          he | ⟨i, pile, c, hp, hc, hmc', he⟩
        · rw [he, hdp] at hq
          cases hq
          exact foundationOrdered_append destPile card (h destPile (mem_of_listGet? hdp)) hcan
        · have hcc : c = card := by
            rw [hmc] at hmc'
            cases hmc'
            rfl
          subst hcc
          by_cases hi : i = ti
          · subst hi
            rw [hp] at hdp
            cases hdp
            rcases (canPlaceOnFoundation_iff destPile c).mp hcan with ⟨hnil, -⟩ |
              ⟨top, htop, -, hrank⟩
            · rw [hnil] at hc
              simp at hc
            · rw [hc] at htop
              cases htop
              omega
          · rw [he, listGet?_listSet_ne g.foundations i ti pile.dropLast hi, hdp] at hq
            cases hq
            exact foundationOrdered_append destPile c
              (h destPile (mem_of_listGet? hdp)) hcan
      · exact hord' _ hmem'
    · intro p hmem
      rw [flipTableauTops_foundations] at hmem
      exact hord' p hmem

theorem foundationsOrdered_step (a b : GameState) (h : Step a b)
    (ha : FoundationsOrdered a) : FoundationsOrdered b := by
  cases h with
  | draw =>
    intro p hp
    rw [drawInternal_foundations] at hp
    exact ha p hp
  | move req => exact applyMove_foundationsOrdered a req ha
  | setDC n =>
    intro p hp
    rw [setDrawCount_state_foundations] at hp
    exact ha p hp

theorem reachable_foundationsOrdered (g : GameState) (h : Reachable g) :
    FoundationsOrdered g := by
  refine reachable_invariant FoundationsOrdered ?_ foundationsOrdered_step g h
  intro rand g₀ h0
  obtain ⟨g', hg', -, hf, -⟩ := newGameState_spec rand
  rw [h0] at hg'
  cases hg'
  intro p hp
  rw [hf] at hp
  simp at hp
  rcases hp with rfl | rfl | rfl | rfl
  all_goals exact foundationOrdered_nil

/-! ## Tableau-to-tableau moves with in-range indices -/

theorem jsSlice_natCast (l : List α) (k : Nat) : jsSlice l (k : Int) = l.drop k := by
  unfold jsSlice
  rw [if_pos (Int.natCast_nonneg k)]
  simp

theorem listGet?_listSet_self {l : List α} {i : Int} {q : α} (x : α)
    (h : listGet? l i = some q) : listGet? (listSet l i x) i = some x := by
  obtain ⟨h0, hlt, -⟩ := listGet?_eq_some_elim h
  unfold listSet
  rw [if_pos h0]
  unfold listGet?
  rw [dif_pos ⟨h0, by simpa using hlt⟩]
  simp only [List.get_eq_getElem]
  congr 1
  rw [List.getElem_set]
  simp

theorem listGet?_listModify_self {l : List α} {i : Int} {q : α} (f : α → α)
    (h : listGet? l i = some q) : listGet? (listModify l i f) i = some (f q) := by
  unfold listModify
  rw [h]
  exact listGet?_listSet_self (f q) h

theorem tableauMove_iff (g : GameState) (i j k : Nat)
    (hi : i < g.tableau.length) (hj : j < g.tableau.length)
    (hk : k < (g.tableau[i]).length) :
    (applyMove g ⟨⟨.tableau, some (i : Int), some (k : Int)⟩,
        ⟨.tableau, some (j : Int), none⟩⟩).isOk = true ↔
      (i ≠ j ∧
       (∀ tc ∈ (g.tableau[i]).drop k, tc.face_up = true) ∧
       List.Chain' tableauAdj ((g.tableau[i]).drop k) ∧
       canPlaceOnTableau (g.tableau[j])
         (((g.tableau[i]).drop k).map (·.card)) = true) := by
  have hp : listGet? g.tableau (i : Int) = some (g.tableau[i]) :=
    listGet?_eq_some_of_lt g.tableau i hi
  have hdp : listGet? g.tableau (j : Int) = some (g.tableau[j]) :=
    listGet?_eq_some_of_lt g.tableau j hj
  have hsuf : (g.tableau[i]).drop k ≠ [] := by
    intro e
    rw [List.drop_eq_nil_iff] at e
    omega
  constructor
  · intro hok
    cases hout : applyMove g _ with
    | err e s =>
      rw [hout] at hok
      exact Bool.noConfusion hok
    | ok gf =>
      obtain ⟨mc, src, g', hres, hrem, hguard, hcase⟩ := applyMove_ok_cases g _ gf hout
      rcases resolveSource_ok_cases g _ mc src hres with
        ⟨hkind, -⟩ | ⟨hkind, -⟩ |
        ⟨-, i', k', pile, hi', hk', -, hp', hklen, hface, hrun, rfl⟩
      · exact absurd hkind (by simp)
      · exact absurd hkind (by simp)
      · have hii : i' = (i : Int) := by
          simpa using hi'.symm
        have hkk : k' = (k : Int) := by
          simpa using hk'.symm
        subst hii hkk
        rw [hp] at hp'
        cases hp'
        rw [jsSlice_natCast] at hface hrun
        have hij : i ≠ j := by
          intro e
          exact hguard ⟨rfl, rfl, by rw [e]⟩
        refine ⟨hij, ?_, ((isValidTableauRun_iff _).mp hrun).2, ?_⟩
        · simpa using hface
        · rcases hcase with ⟨-, -, -, htk, -⟩ | ⟨ti, destPile, -, hti, hdp', -, hcan, -⟩
          · exact absurd htk (by simp)
          · have htj : ti = (j : Int) := by simpa using hti.symm
            subst htj
            rw [hdp] at hdp'
            cases hdp'
            rw [jsSlice_natCast] at hcan
            exact hcan
  · rintro ⟨hij, hface, hchain, hcan⟩
    have hres := resolveSource_tableau_eq g ⟨.tableau, some (i : Int), some (k : Int)⟩
      (i : Int) (k : Int) (g.tableau[i]) rfl rfl rfl hp (by omega)
      (by rw [jsSlice_natCast]; simpa using hface)
      (by rw [jsSlice_natCast]; exact (isValidTableauRun_iff _).mpr ⟨hsuf, hchain⟩)
    have hrem := removeFromSource_tableau_eq g (i : Int) (k : Int) (g.tableau[i])
      hp (by omega) (by omega)
    rw [applyMove_tableau_eq g _ _ _ (j : Int) (g.tableau[j]) _ hres rfl rfl
      (by rintro ⟨-, he⟩; simp at he; omega) hdp
      (by rw [jsSlice_natCast]; simpa using hsuf)
      (by rw [jsSlice_natCast]; exact hcan) hrem]
    rfl

theorem tableauMove_result (g : GameState) (i j k : Nat)
    (hi : i < g.tableau.length) (hj : j < g.tableau.length)
    (hk : k < (g.tableau[i]).length) (gf : GameState)
    (hout : applyMove g ⟨⟨.tableau, some (i : Int), some (k : Int)⟩,
      ⟨.tableau, some (j : Int), none⟩⟩ = .ok gf) :
    listGet? gf.tableau (j : Int)
      = some ((g.tableau[j])
          ++ ((g.tableau[i]).drop k).map fun tc => ⟨tc.card, true⟩) := by
  have hp : listGet? g.tableau (i : Int) = some (g.tableau[i]) :=
    listGet?_eq_some_of_lt g.tableau i hi
  have hdp : listGet? g.tableau (j : Int) = some (g.tableau[j]) :=
    listGet?_eq_some_of_lt g.tableau j hj
  have hsuf : (g.tableau[i]).drop k ≠ [] := by
    intro e
    rw [List.drop_eq_nil_iff] at e
    omega
  obtain ⟨mc, src, g', hres, hrem, hguard, hcase⟩ := applyMove_ok_cases g _ gf hout
  rcases resolveSource_ok_cases g _ mc src hres with
    ⟨hkind, -⟩ | ⟨hkind, -⟩ |
    ⟨-, i', k', pile, hi', hk', rfl, hp', hklen, hface, hrun, rfl⟩
  · exact absurd hkind (by simp)
  · exact absurd hkind (by simp)
  · have hii : i' = (i : Int) := by simpa using hi'.symm
    have hkk : k' = (k : Int) := by simpa using hk'.symm
    subst hii hkk
    rw [hp] at hp'
    cases hp'
    have hij : i ≠ j := by
      intro e
      exact hguard ⟨rfl, rfl, by rw [e]⟩
    rw [removeFromSource_tableau_eq g (i : Int) (k : Int) (g.tableau[i])
      hp (by omega) (by omega)] at hrem
    cases hrem
    rcases hcase with ⟨-, -, -, htk, -⟩ | ⟨ti, destPile, -, hti, hdp', -, -, rfl⟩
    · exact absurd htk (by simp)
    · have htj : ti = (j : Int) := by simpa using hti.symm
      subst htj
      rw [hdp] at hdp'
      cases hdp'
      have hstep1 : listGet? (listSet g.tableau (i : Int)
          ((g.tableau[i]).take (k : Int).toNat)) (j : Int)
          = some (g.tableau[j]) := by
        rw [listGet?_listSet_ne _ _ _ _ (by simpa using fun e => hij (by exact_mod_cast e))]
        exact hdp
      have hstep2 := listGet?_listModify_self
        (fun x => x ++ ((jsSlice (g.tableau[i]) (k : Int)).map (·.card)).map
          fun c => (⟨c, true⟩ : TableauCard)) hstep1
      unfold flipTableauTops
      dsimp only
      rw [listGet?_map, hstep2]
      dsimp only
      have hmap : (((jsSlice (g.tableau[i]) (k : Int)).map (·.card)).map
          fun c => (⟨c, true⟩ : TableauCard))
          = ((g.tableau[i]).drop k).map fun tc => (⟨tc.card, true⟩ : TableauCard) := by
        rw [jsSlice_natCast, List.map_map]
        rfl
      rw [hmap]
      simp only [Option.map_some']
      congr 1
      obtain ⟨lastTc, hlast⟩ : ∃ tc, ((g.tableau[i]).drop k).getLast? = some tc := by
        cases hl : ((g.tableau[i]).drop k).getLast? with
        | none => exact absurd (List.getLast?_eq_none_iff.mp hl) hsuf
        | some tc => exact ⟨tc, rfl⟩
      apply flipTop_of_faceUp_last _ ⟨lastTc.card, true⟩
      · rw [List.getLast?_append_of_ne_nil _ (by simpa using hsuf),
          List.getLast?_map, hlast]
        rfl
      · rfl

/-! ## Claim theorems -/

/-- An empty board used as a concrete test fixture. -/
def emptyGame : GameState :=
  { stock := [], waste := [], foundations := [[], [], [], []],
    tableau := [[], [], [], [], [], [], []], draw_count := 3 }

/-- The deal produced by `newGame()` under the constant-zero randomness
oracle, used as a concrete test fixture. -/
def gNew0 : GameState :=
  (newGameState fun _ => 0).getD emptyGame

/-- C1: Card conservation — for every state reachable from `newGame()`
via any sequence of `draw()`, `moveCards()` and `setDrawCount()` calls
(counting rejected calls too), the multiset of card ids across stock,
waste, the four foundations and the seven tableau piles is exactly the
52 distinct ids 0..51. -/
theorem moveCards_card_conservation (g : GameState) (h : Reachable g) :
    stateIds g = stdIds :=
  reachable_stateIds g h

theorem moveCards_card_conservation_witness : stateIds gNew0 = stdIds :=
  moveCards_card_conservation gNew0
    ⟨(fun _ => 0), gNew0, by decide, Relation.ReflTransGen.refl⟩

/-- C2: Move atomicity — whenever `moveCards` rejects a request (for any
reason, the `RangeError` included), the state it leaves behind is the
state before the call: no partial mutation of any pile, face-up flag or
draw count occurs. -/
theorem moveCards_atomicity (g : GameState) (req : MoveRequest) (e : JsErr)
    (s : GameState) (h : applyMove g req = .err e s) : s = g :=
  applyMove_err_state g req e s h

theorem moveCards_atomicity_witness :
    applyMove emptyGame ⟨⟨.waste, none, none⟩, ⟨.foundation, some 0, none⟩⟩
      = .err .wasteEmpty emptyGame ∧ emptyGame = emptyGame :=
  ⟨by decide, moveCards_atomicity emptyGame
    ⟨⟨.waste, none, none⟩, ⟨.foundation, some 0, none⟩⟩ .wasteEmpty emptyGame (by decide)⟩

/-- A state with a single face-up Ace of hearts on tableau pile 0,
exercising the negative `card_index` path. -/
def gC3 : GameState :=
  { stock := [], waste := [], foundations := [[], [], [], []],
    tableau := [[⟨⟨0, .hearts, 1⟩, true⟩], [], [], [], [], [], []], draw_count := 3 }

/-- C3: contradicted by the code — a tableau source with `card_index = -1`
is NOT rejected as a structured out-of-range index: the source stage
resolves the JS `slice(-1)` run, validation passes, and the commit throws
an unstructured `RangeError` from `pile.length = -1`, unlike the
structured `"Tableau card index out of range"` rejection the claim
requires. -/
theorem moveCards_negative_card_index_rangeError :
    applyMove gC3 ⟨⟨.tableau, some 0, some (-1)⟩, ⟨.foundation, some 0, none⟩⟩
        = .err .rangeError gC3 ∧
    JsErr.structured .rangeError = false ∧
    JsErr.structured .tableauCardIndexOutOfRange = true ∧
    resolveSource gC3 ⟨.tableau, some 0, some (-1)⟩
        = .ok ([⟨0, .hearts, 1⟩], .tableau 0 (-1)) := by
  refine ⟨by decide, rfl, rfl, by rfl⟩

/-- C8: Modelled from the spec (`setState` is imported from the backend
module by `useGame.ts` but its body is not among the provided sources):
`setState` installs any structurally valid GameState as the authoritative
state without rule re-validation and returns it, so a following
`getState()` returns a state structurally equal to the installed one. -/
theorem setState_restore_path (cur s : GameState) :
    (setState cur s).1 = s ∧ (setState cur s).2 = s ∧
    getState (setState cur s).1 = s :=
  ⟨rfl, rfl, rfl⟩

/-- C9: `setDrawCount` frame and rejection — any `n` other than 1 or 3 is
rejected with the state unchanged; `n = 1` or `n = 3` succeeds and
changes only `draw_count`. -/
theorem setDrawCount_frame_and_rejection (g : GameState) (n : Int) :
    ((n ≠ 1 ∧ n ≠ 3) → setDrawCount g n = .err .drawCountInvalid g) ∧
    ((n = 1 ∨ n = 3) → setDrawCount g n = .ok { g with draw_count := n }) := by
  constructor
  · intro h
    unfold setDrawCount
    rw [if_pos h]
  · intro h
    unfold setDrawCount
    rw [if_neg (by tauto)]

theorem setDrawCount_frame_and_rejection_witness :
    setDrawCount emptyGame 2 = .err .drawCountInvalid emptyGame ∧
    setDrawCount emptyGame 1 = .ok { emptyGame with draw_count := 1 } :=
  ⟨(setDrawCount_frame_and_rejection emptyGame 2).1 (by decide),
   (setDrawCount_frame_and_rejection emptyGame 1).2 (Or.inl rfl)⟩

theorem canPlaceOnTableau_claim_iff (pile : List TableauCard) (cs : List Card)
    (hne : cs ≠ []) :
    canPlaceOnTableau pile cs = true ↔
      ((pile = [] ∧ ∃ lead rest, cs = lead :: rest ∧ lead.rank = 13) ∨
       (∃ top lead rest, pile.getLast? = some top ∧ cs = lead :: rest ∧
         top.face_up = true ∧ isRed top.card.suit ≠ isRed lead.suit ∧
         top.card.rank = lead.rank + 1)) := by
  cases cs with
  | nil => exact absurd rfl hne
  | cons lead rest =>
    rw [canPlaceOnTableau_iff pile lead rest]
    constructor
    · rintro (⟨h1, h2⟩ | ⟨top, h1, h2, h3, h4⟩)
      · exact Or.inl ⟨h1, lead, rest, rfl, h2⟩
      · exact Or.inr ⟨top, lead, rest, h1, rfl, h2, h3, h4⟩
    · rintro (⟨h1, lead', rest', he, h2⟩ | ⟨top, lead', rest', h1, he, h2, h3, h4⟩)
      · cases he
        exact Or.inl ⟨h1, h2⟩
      · cases he
        exact Or.inr ⟨top, h1, h2, h3, h4⟩

instance tableauAdjDecidable (a b : TableauCard) : Decidable (tableauAdj a b) :=
  decidable_of_iff
    (a.card.rank = b.card.rank + 1 ∧ isRed a.card.suit ≠ isRed b.card.suit) Iff.rfl

/-- C4: Tableau-to-tableau legality — with pile indices `i ≠ j` and card
index `k` all in range, the move succeeds iff the whole suffix from `k`
is face-up, consecutive suffix cards descend by one rank in alternating
colors, and the destination is either empty with a King-led run or its
face-up top card is one rank above the run's lead card and of the other
color; on success the suffix is appended to pile `j` face-up in order. -/
theorem moveCards_tableau_to_tableau_legality (g : GameState) (i j k : Nat)
    (hi : i < g.tableau.length) (hj : j < g.tableau.length)
    (hk : k < (g.tableau[i]).length) :
    ((applyMove g ⟨⟨.tableau, some (i : Int), some (k : Int)⟩,
        ⟨.tableau, some (j : Int), none⟩⟩).isOk = true ↔
      (i ≠ j ∧
       (∀ tc ∈ (g.tableau[i]).drop k, tc.face_up = true) ∧
       List.Chain' tableauAdj ((g.tableau[i]).drop k) ∧
       ((g.tableau[j] = [] ∧ ∃ lead rest,
           ((g.tableau[i]).drop k).map (·.card) = lead :: rest ∧ lead.rank = 13) ∨
        (∃ top lead rest, (g.tableau[j]).getLast? = some top ∧
           ((g.tableau[i]).drop k).map (·.card) = lead :: rest ∧
           top.face_up = true ∧ isRed top.card.suit ≠ isRed lead.suit ∧
           top.card.rank = lead.rank + 1)))) ∧
    (∀ gf, applyMove g ⟨⟨.tableau, some (i : Int), some (k : Int)⟩,
        ⟨.tableau, some (j : Int), none⟩⟩ = .ok gf →
      listGet? gf.tableau (j : Int)
        = some (g.tableau[j] ++ ((g.tableau[i]).drop k).map fun tc => ⟨tc.card, true⟩)) := by
  have hne : ((g.tableau[i]).drop k).map (·.card) ≠ [] := by
    simp only [ne_eq, List.map_eq_nil_iff, List.drop_eq_nil_iff]
    omega
  constructor
  · rw [tableauMove_iff g i j k hi hj hk,
      canPlaceOnTableau_claim_iff (g.tableau[j]) (((g.tableau[i]).drop k).map (·.card)) hne]
  · intro gf hout
    exact tableauMove_result g i j k hi hj hk gf hout

/-- A two-pile fixture: a black 7 alone on pile 0, a red face-up 8 on
pile 1. -/
def gTwoPiles : GameState :=
  { stock := [], waste := [], foundations := [[], [], [], []],
    tableau := [[⟨⟨0, .spades, 7⟩, true⟩], [⟨⟨1, .hearts, 8⟩, true⟩],
      [], [], [], [], []], draw_count := 3 }

theorem moveCards_tableau_to_tableau_legality_witness :
    (applyMove gTwoPiles ⟨⟨.tableau, some 0, some 0⟩,
      ⟨.tableau, some 1, none⟩⟩).isOk = true :=
  ((moveCards_tableau_to_tableau_legality gTwoPiles 0 1 0
    (by decide) (by decide) (by decide)).1).mpr
    ⟨by decide, by decide,
      by
        show List.Chain' tableauAdj [⟨⟨0, .spades, 7⟩, true⟩]
        exact List.chain'_singleton _,
      Or.inr ⟨⟨⟨1, .hearts, 8⟩, true⟩, ⟨0, .spades, 7⟩, [], rfl, rfl, rfl,
        by decide, by decide⟩⟩

/-- A state with a single face-up Ace of spades on tableau pile 0 and an
empty foundation 0, exercising the negative `card_index` hole in the
foundation-placement criterion. -/
def gC5 : GameState :=
  { stock := [], waste := [], foundations := [[], [], [], []],
    tableau := [[⟨⟨12, .spades, 1⟩, true⟩], [], [], [], [], [], []], draw_count := 3 }

/-- C5 counterexample: at this state and request the source resolves to a
run of exactly one card, the target foundation is empty and the card is
an Ace — the claim's criterion is satisfied — yet `moveCards` does not
succeed (the commit raises the `RangeError`), so the claim's
"if and only if", quantified over every move request, is false. -/
theorem moveCards_foundation_iff_counterexample :
    resolveSource gC5 ⟨.tableau, some 0, some (-1)⟩
        = .ok ([⟨12, .spades, 1⟩], .tableau 0 (-1)) ∧
    listGet? gC5.foundations 0 = some [] ∧
    (⟨12, .spades, 1⟩ : Card).rank = 1 ∧
    (applyMove gC5 ⟨⟨.tableau, some 0, some (-1)⟩,
      ⟨.foundation, some 0, none⟩⟩).isOk = false := by
  refine ⟨by rfl, by decide, rfl, by decide⟩

/-- C5 (amended): with a foundation target at an in-range index,
`moveCards` succeeds iff the source resolves to exactly one card, the
resolved source is safe to commit (a tableau source's card index is
non-negative), and either the foundation is empty and the card is an
Ace, or the foundation's top card has the same suit and exactly one
rank less.  Moreover every state reachable from `newGame()` via
`draw()`, `moveCards()` and `setDrawCount()` has every foundation pile
reading Ace, 2, 3, ... of a single suit. -/
theorem moveCards_foundation_placement :
    (∀ (g : GameState) (req : MoveRequest) (ti : Int) (destPile : List Card),
      req.target.kind = .foundation → req.target.index = some ti →
      listGet? g.foundations ti = some destPile →
      ((applyMove g req).isOk = true ↔
        ∃ c src, resolveSource g req.source = .ok ([c], src) ∧ sourceSafe src ∧
          ((destPile = [] ∧ c.rank = 1) ∨
           (∃ top, destPile.getLast? = some top ∧ top.suit = c.suit ∧
             c.rank = top.rank + 1)))) ∧
    (∀ g, Reachable g → FoundationsOrdered g) := by
  constructor
  · intro g req ti destPile ht hti hdp
    rw [foundationMove_iff g req ti destPile ht hti hdp]
    constructor
    · rintro ⟨c, src, hres, hsafe, hcan⟩
      exact ⟨c, src, hres, hsafe, (canPlaceOnFoundation_iff destPile c).mp hcan⟩
    · rintro ⟨c, src, hres, hsafe, hrule⟩
      exact ⟨c, src, hres, hsafe, (canPlaceOnFoundation_iff destPile c).mpr hrule⟩
  · exact reachable_foundationsOrdered

/-- A waste holding a single Ace of diamonds. -/
def gW5 : GameState :=
  { stock := [], waste := [⟨20, .diamonds, 1⟩], foundations := [[], [], [], []],
    tableau := [[], [], [], [], [], [], []], draw_count := 3 }

theorem moveCards_foundation_placement_witness :
    (applyMove gW5 ⟨⟨.waste, none, none⟩, ⟨.foundation, some 0, none⟩⟩).isOk = true :=
  (moveCards_foundation_placement.1 gW5
      ⟨⟨.waste, none, none⟩, ⟨.foundation, some 0, none⟩⟩ 0 [] rfl rfl (by decide)).mpr
    ⟨⟨20, .diamonds, 1⟩, .waste, by rfl, trivial, Or.inl ⟨rfl, rfl⟩⟩

/-- A stock of one card with the (unreachable through the public API,
but structurally valid) draw count 0. -/
def gC6 : GameState :=
  { stock := [⟨7, .clubs, 9⟩], waste := [], foundations := [[], [], [], []],
    tableau := [[], [], [], [], [], [], []], draw_count := 0 }

/-- C6 counterexample: with `draw_count = 0` and one stock card, the
claim's `min(draw_count, stock.length) = 0` predicts that no card moves,
but the code clamps the count with `Math.max(1, draw_count)` and moves
one card. -/
theorem draw_min_formula_counterexample :
    gC6.draw_count = 0 ∧ gC6.stock.length = 1 ∧
    min gC6.draw_count (gC6.stock.length : Int) = 0 ∧
    (drawInternal gC6).waste.length = 1 ∧ drawInternal gC6 ≠ gC6 := by
  refine ⟨rfl, rfl, by decide, by decide, by decide⟩

/-- C6 (amended): `draw()` by cases — a non-empty stock moves exactly
`min(max(1, draw_count), stock.length)` cards from the top of the stock
to the top of the waste (most recently drawn on top), leaving
foundations, tableau and draw count unchanged; an empty stock with a
non-empty waste moves the whole waste back to the stock in reversed
order without drawing; when both are empty the call is a no-op. -/
theorem draw_algorithm_cases (g : GameState) :
    (g.stock ≠ [] →
      drawInternal g = { g with
        stock := g.stock.take (g.stock.length
          - (min (max 1 g.draw_count) (g.stock.length : Int)).toNat)
        waste := g.waste ++ (g.stock.drop (g.stock.length
          - (min (max 1 g.draw_count) (g.stock.length : Int)).toNat)).reverse }) ∧
    (g.stock = [] → g.waste ≠ [] →
      drawInternal g = { g with stock := g.waste.reverse, waste := [] }) ∧
    (g.stock = [] → g.waste = [] → drawInternal g = g) := by
  refine ⟨?_, ?_, ?_⟩
  · intro hs
    have htn : (min (max 1 g.draw_count) (g.stock.length : Int)).toNat
        = min (max 1 g.draw_count).toNat g.stock.length := by
      have h1 : (1 : Int) ≤ max 1 g.draw_count := le_max_left 1 g.draw_count
      omega
    rw [htn, drawInternal_stock_nonempty g (by simpa using hs)]
  · intro hs hw
    rw [drawInternal_recycle g (by simpa using hs) (by simpa using hw), hs]
    simp
  · intro hs hw
    exact drawInternal_both_empty g (by simpa using hs) (by simpa using hw)

/-- A four-card stock with the default draw count 3. -/
def gDraw : GameState :=
  { stock := [⟨1, .hearts, 2⟩, ⟨2, .hearts, 3⟩, ⟨3, .hearts, 4⟩, ⟨4, .hearts, 5⟩],
    waste := [⟨0, .hearts, 1⟩], foundations := [[], [], [], []],
    tableau := [[], [], [], [], [], [], []], draw_count := 3 }

theorem draw_algorithm_cases_witness :
    drawInternal gDraw = { gDraw with
      stock := gDraw.stock.take (gDraw.stock.length
        - (min (max 1 gDraw.draw_count) (gDraw.stock.length : Int)).toNat)
      waste := gDraw.waste ++ (gDraw.stock.drop (gDraw.stock.length
        - (min (max 1 gDraw.draw_count) (gDraw.stock.length : Int)).toNat)).reverse } :=
  (draw_algorithm_cases gDraw).1 (by decide)

/-- C7: `newGame()` postcondition — for every randomness oracle the deal
succeeds and yields seven tableau piles of sizes 1..7 in order with
exactly the last card of each pile face-up, a 24-card stock, empty waste,
four empty foundations, draw count 3, and the cards across stock and
tableau are exactly the 52 cards of 4 suits × ranks 1–13 with the 52
distinct ids 0..51. -/
theorem newGame_postcondition (rand : Nat → Nat) :
    ∃ g, newGameState rand = some g ∧
      g.waste = [] ∧ g.foundations = [[], [], [], []] ∧ g.draw_count = 3 ∧
      g.tableau.length = 7 ∧ g.stock.length = 24 ∧
      (∀ j, j < 7 → ∃ p, g.tableau[j]? = some p ∧ p.length = j + 1 ∧
        p.map (·.face_up) = List.replicate j false ++ [true]) ∧
      ↑g.stock + cardsT g.tableau = (↑standardDeck : Multiset Card) ∧
      stateIds g = stdIds ∧ stdIds.Nodup := by
  obtain ⟨g, hg, h1, h2, h3, h4, h5, h6, h7⟩ := newGameState_spec rand
  exact ⟨g, hg, h1, h2, h3, h4, h5, h6, h7,
    stateIds_newGameState rand g hg, by decide⟩

theorem newGame_postcondition_witness :
    newGameState (fun _ => 0) = some gNew0 ∧ gNew0.stock.length = 24 := by
  obtain ⟨g, hg, -, -, -, -, hsl, -, -, -, -⟩ := newGame_postcondition (fun _ => 0)
  have he : gNew0 = g := by
    unfold gNew0
    rw [hg]
    rfl
  rw [he]
  exact ⟨hg, hsl⟩

/-- A state with a single face-up Ace of diamonds on tableau pile 2 and
an empty foundation 3, exercising the negative `card_index` hole in the
any-Ace-on-any-empty-foundation claim. -/
def gC10 : GameState :=
  { stock := [], waste := [], foundations := [[], [], [], []],
    tableau := [[], [], [⟨⟨25, .diamonds, 1⟩, true⟩], [], [], [], []], draw_count := 3 }

/-- C10 counterexample: at this state and request the source resolves to
a run of exactly one card of rank 1 (an Ace of diamonds) and the target
foundation is empty at an in-range index — a resolvable single-card Ace
source under the claim's quantification — yet `moveCards` does not
succeed: the commit raises the `RangeError` because the source's
`card_index` is `-1`.  So the claim's universal over every resolvable
single-card source is false as stated. -/
theorem foundation_slots_counterexample :
    resolveSource gC10 ⟨.tableau, some 2, some (-1)⟩
        = .ok ([⟨25, .diamonds, 1⟩], .tableau 2 (-1)) ∧
    listGet? gC10.foundations 3 = some [] ∧
    (⟨25, .diamonds, 1⟩ : Card).rank = 1 ∧
    (applyMove gC10 ⟨⟨.tableau, some 2, some (-1)⟩,
      ⟨.foundation, some 3, none⟩⟩).isOk = false := by
  refine ⟨by rfl, by decide, rfl, by decide⟩

/-- C10 (amended): foundation slots are not suit-bound — with any empty
foundation at an in-range index and any resolvable single-card source
holding an Ace whose removal does not fault (a tableau source's card
index is non-negative), the move succeeds, whatever the Ace's suit: the
engine associates no suit with a foundation index (the suit ordering of
slots exists only in the presentation layer's `suitOrder`). -/
theorem foundation_slots_not_suit_bound (g : GameState) (req : MoveRequest)
    (ti : Int) (destPile : List Card) (c : Card) (src : MoveSource)
    (ht : req.target.kind = .foundation) (hti : req.target.index = some ti)
    (hdp : listGet? g.foundations ti = some destPile) (hempty : destPile = [])
    (hres : resolveSource g req.source = .ok ([c], src))
    (hsafe : sourceSafe src)
    (hace : c.rank = 1) :
    (applyMove g req).isOk = true := by
  subst hempty
  rw [foundationMove_iff g req ti [] ht hti hdp]
  have hcan : canPlaceOnFoundation [] c = true := by
    unfold canPlaceOnFoundation
    simpa using hace
  exact ⟨c, src, hres, hsafe, hcan⟩

/-- An Ace of clubs on the waste; the presentation layer's `suitOrder`
associates slot 0 with hearts, yet the engine accepts the club Ace
there. -/
def gW10 : GameState :=
  { stock := [], waste := [⟨30, .clubs, 1⟩], foundations := [[], [], [], []],
    tableau := [[], [], [], [], [], [], []], draw_count := 3 }

theorem foundation_slots_not_suit_bound_witness :
    (applyMove gW10 ⟨⟨.waste, none, none⟩, ⟨.foundation, some 0, none⟩⟩).isOk = true :=
  foundation_slots_not_suit_bound gW10
    ⟨⟨.waste, none, none⟩, ⟨.foundation, some 0, none⟩⟩ 0 [] ⟨30, .clubs, 1⟩ .waste
    rfl rfl (by decide) rfl (by rfl) trivial rfl
